import Mathlib

/-!
# Wedding Filmmaker Project Manager: a verification development

A shallow embedding of `src/app.js` (class `ProjectManager`) and theorems about it.

* JavaScript numbers are IEEE-754 doubles.  The only arithmetic the program does is
  `Math.round((a / b) * 100)` on non-negative integers `a ≤ b`, `0 < b`; the three
  operations are modelled exactly (round-to-nearest, ties-to-even on a 53 bit
  significand) over natural numbers and integers.
* The state of a `ProjectManager` object and of the browser objects it touches
  (`localStorage`, the cards of `#projects-container`, the chart, `alert` and `console`)
  is one record that every method passes on.  A method that mutates an object in place
  returns the record with that object replaced.
* `this.projects` is a list of typed project records.  A value of any other shape can
  reach it only through `loadProjects`, which says so in its result (`LoadResult.untyped`).
* The properties of a tasks object are a list in the order JavaScript lists them: the
  names that are array indices first, ascending, then the other names as created.
* `updateProjectUI` can throw, and `updateTask` does not catch it: both return an
  `Outcome`, the state they leave and the exception they end by, if any.
* `JSON.stringify`, `JSON.parse`, `Array.prototype.sort`, the `Date` parser and
  `querySelector` are builtins of the platform.  The first three are modelled here from
  their ECMAScript definitions; the time value of a date text, its local format and
  whether a selector is accepted are parameters (`Env`).
  Strings are sequences of Unicode characters; an escaped UTF-16 surrogate without a
  partner, which such a string cannot hold, is read as U+FFFD.
-/

namespace WeddingPM

/-! ## Doubles -/

/-- Fuelled worker of `log2`: the number of halvings that bring `n` below 2. -/
def log2Aux : Nat → Nat → Nat
  | 0, _ => 0
  | fuel + 1, n => if n < 2 then 0 else log2Aux fuel (n / 2) + 1

/-- The position of the highest set bit of `n` (0 for `n ≤ 1`). -/
def log2 (n : Nat) : Nat := log2Aux n n

/-- A finite non-negative double, held as `m * 2 ^ e`. -/
structure Dbl where
  m : Nat
  e : Int
deriving DecidableEq, Repr

/-- Whether `2 ^ d ≤ a / b`, for `0 < b`. -/
def geTwoPow (a b : Nat) (d : Int) : Bool :=
  if 0 ≤ d then decide (b * 2 ^ d.toNat ≤ a) else decide (b ≤ a * 2 ^ (-d).toNat)

/-- The integer part of the binary logarithm of `a / b`, for `0 < a` and `0 < b`. -/
def ilog2Q (a b : Nat) : Int :=
  let d : Int := (log2 a : Int) - (log2 b : Int)
  if geTwoPow a b d then d else d - 1

/-- The double nearest to the exact quotient `a / b` (`0 < b`): the significand is the
quotient scaled into 53 bits and rounded to nearest, ties to even; the exponent is not
taken below that of the subnormals.  Overflow does not arise: the program's operands
are at most 100. -/
def roundQ (a b : Nat) : Dbl :=
  if a = 0 then ⟨0, 0⟩
  else
    let e : Int := max (ilog2Q a b - 52) (-1074)
    let x : Nat := if 0 ≤ e then a else a * 2 ^ (-e).toNat
    let y : Nat := if 0 ≤ e then b * 2 ^ e.toNat else b
    let q := x / y
    let r := x % y
    let m := if y < 2 * r ∨ (2 * r = y ∧ q % 2 = 1) then q + 1 else q
    ⟨m, e⟩

/-- The JavaScript quotient `a / b` of two integers below `2 ^ 53`, `0 < b`. -/
def jsDiv (a b : Nat) : Dbl := roundQ a b

/-- The JavaScript product `x * n` of a double and an integer below `2 ^ 53`. -/
def jsMul (x : Dbl) (n : Nat) : Dbl :=
  if 0 ≤ x.e then roundQ (x.m * n * 2 ^ x.e.toNat) 1
  else roundQ (x.m * n) (2 ^ (-x.e).toNat)

/-- The builtin `Math.round` on a non-negative double: the nearest integer, a tie going
up; computed exactly. -/
def mathRound (x : Dbl) : Nat :=
  if 0 ≤ x.e then x.m * 2 ^ x.e.toNat
  else (2 * x.m + 2 ^ (-x.e).toNat) / (2 * 2 ^ (-x.e).toNat)

/-- The expression `Math.round((a / b) * 100)` of `updateTask` and
`calculateCompletionData`, for `0 < b`. -/
def percent (a b : Nat) : Nat := mathRound (jsMul (jsDiv a b) 100)

/-- The mathematical `round(a / b)` with a half rounded up, for `0 < b`: the rounding the
specification writes as `round(100 * k / n)`. -/
def roundHalfUp (a b : Nat) : Nat := (2 * a + b) / (2 * b)

/-! ## Decimal numerals -/

/-- The character of a digit below sixteen (lower case, as `JSON.stringify` writes). -/
def digitChar (d : Nat) : Char :=
  if d = 0 then '0' else if d = 1 then '1' else if d = 2 then '2' else if d = 3 then '3'
  else if d = 4 then '4' else if d = 5 then '5' else if d = 6 then '6'
  else if d = 7 then '7' else if d = 8 then '8' else if d = 9 then '9'
  else if d = 10 then 'a' else if d = 11 then 'b' else if d = 12 then 'c'
  else if d = 13 then 'd' else if d = 14 then 'e' else 'f'

/-- Fuelled worker of `natDigits`: puts the digits of `n` in front of `acc`. -/
def natDigitsAux : Nat → Nat → List Char → List Char
  | 0, _, acc => acc
  | fuel + 1, n, acc =>
    if n < 10 then digitChar n :: acc
    else natDigitsAux fuel (n / 10) (digitChar (n % 10) :: acc)

/-- The decimal numeral of a natural number: `Number.prototype.toString` on a
non-negative integer below `10 ^ 21`. -/
def natDigits (n : Nat) : List Char := natDigitsAux (n + 1) n []

/-! ## JSON values and `JSON.stringify` -/

/-- A JSON text as a tree.  `num` is a non-negative integer numeral; every other
number (negative, with a fraction or an exponent) is kept as its source text. -/
inductive JsVal where
  | null
  | bool (b : Bool)
  | num (n : Nat)
  | numOther (raw : List Char)
  | str (s : List Char)
  | arr (items : List JsVal)
  | obj (fields : List (List Char × JsVal))

/-- One character of a string as `JSON.stringify` quotes it. -/
def quoteChar (c : Char) : List Char :=
  if c = '"' then ['\\', '"']
  else if c = '\\' then ['\\', '\\']
  else if c = '\x08' then ['\\', 'b']
  else if c = '\x0c' then ['\\', 'f']
  else if c = '\n' then ['\\', 'n']
  else if c = '\r' then ['\\', 'r']
  else if c = '\t' then ['\\', 't']
  else if c.toNat < 32 then
    ['\\', 'u', '0', '0', digitChar (c.toNat / 16), digitChar (c.toNat % 16)]
  else [c]

/-- The characters of a string between its quotes. -/
def quoteChars : List Char → List Char
  | [] => []
  | c :: cs => quoteChar c ++ quoteChars cs

/-- A string as `JSON.stringify` writes it. -/
def quote (s : List Char) : List Char := '"' :: (quoteChars s ++ ['"'])

mutual
/-- The text `JSON.stringify` writes for a value (no indentation argument). -/
def render : JsVal → List Char
  | .null => ['n', 'u', 'l', 'l']
  | .bool true => ['t', 'r', 'u', 'e']
  | .bool false => ['f', 'a', 'l', 's', 'e']
  | .num n => natDigits n
  | .numOther raw => raw
  | .str s => quote s
  | .arr [] => ['[', ']']
  | .arr (v :: vs) => '[' :: (render v ++ renderItems vs)
  | .obj [] => ['\x7b', '\x7d']
  | .obj ((k, v) :: fs) => '\x7b' :: (quote k ++ ':' :: (render v ++ renderFields fs))
/-- The rest of an array after its first element, the closing bracket included. -/
def renderItems : List JsVal → List Char
  | [] => [']']
  | v :: vs => ',' :: (render v ++ renderItems vs)
/-- The rest of an object after its first member, the closing brace included. -/
def renderFields : List (List Char × JsVal) → List Char
  | [] => ['\x7d']
  | (k, v) :: fs => ',' :: (quote k ++ ':' :: (render v ++ renderFields fs))
end

/-- The builtin `JSON.stringify` on a JSON value. -/
def stringify (v : JsVal) : String := String.mk (render v)

/-! ## `JSON.parse` -/

/-- JSON white space. -/
def isWs (c : Char) : Bool := c = ' ' ∨ c = '\t' ∨ c = '\n' ∨ c = '\r'

/-- Drops leading white space. -/
def skipWs : List Char → List Char
  | [] => []
  | c :: cs => if isWs c then skipWs cs else c :: cs

/-- Whether a character is a decimal digit. -/
def isDigit (c : Char) : Bool := decide (48 ≤ c.toNat ∧ c.toNat ≤ 57)

/-- The value of a hexadecimal digit. -/
def hexValue (c : Char) : Option Nat :=
  if 48 ≤ c.toNat ∧ c.toNat ≤ 57 then some (c.toNat - 48)
  else if 97 ≤ c.toNat ∧ c.toNat ≤ 102 then some (c.toNat - 87)
  else if 65 ≤ c.toNat ∧ c.toNat ≤ 70 then some (c.toNat - 55)
  else none

/-- The value of four hexadecimal digits. -/
def hex4 (a b c d : Char) : Option Nat :=
  match hexValue a, hexValue b, hexValue c, hexValue d with
  | some x, some y, some z, some w => some (((x * 16 + y) * 16 + z) * 16 + w)
  | _, _, _, _ => none

/-- The leading decimal digits of a text, and what follows them. -/
def spanDigits : List Char → List Char × List Char
  | [] => ([], [])
  | c :: cs =>
    if isDigit c then ((spanDigits cs).1.cons c, (spanDigits cs).2) else ([], c :: cs)

/-- The number a sequence of decimal digits writes. -/
def digitsValue (ds : List Char) : Nat :=
  ds.foldl (fun acc c => acc * 10 + (c.toNat - 48)) 0

/-- The fraction of a JSON number, if one starts here: a point and at least one digit. -/
def readFraction : List Char → Option (List Char × List Char)
  | '.' :: cs =>
    match spanDigits cs with
    | ([], _) => none
    | (ds, rest) => some ('.' :: ds, rest)
  | cs => some ([], cs)

/-- The exponent of a JSON number, if one starts here. -/
def readExponent : List Char → Option (List Char × List Char)
  | [] => some ([], [])
  | c :: cs =>
    if c = 'e' ∨ c = 'E' then
      match cs with
      | [] => none
      | s :: cs1 =>
        if s = '+' ∨ s = '-' then
          match spanDigits cs1 with
          | ([], _) => none
          | (ds, rest) => some (c :: s :: ds, rest)
        else
          match spanDigits (s :: cs1) with
          | ([], _) => none
          | (ds, rest) => some (c :: ds, rest)
    else some ([], c :: cs)

/-- A JSON number at the head of a text: an optional minus sign, an integer part with no
leading zero, an optional fraction and an optional exponent. -/
def readNumber (cs : List Char) : Option (JsVal × List Char) :=
  let sign : List Char × List Char :=
    match cs with
    | '-' :: r => (['-'], r)
    | _ => ([], cs)
  match spanDigits sign.2 with
  | ([], _) => none
  | (d :: ds, rest) =>
    if d = '0' ∧ ds ≠ [] then none
    else
      match readFraction rest with
      | none => none
      | some (frac, rest1) =>
        match readExponent rest1 with
        | none => none
        | some (exp, rest2) =>
          if sign.1 = [] ∧ frac = [] ∧ exp = [] then some (.num (digitsValue (d :: ds)), rest2)
          else some (.numOther (sign.1 ++ d :: ds ++ frac ++ exp), rest2)

/-- The character U+FFFD, standing for a UTF-16 surrogate that has no partner. -/
def replacementChar : Char := Char.ofNat 65533

/-- One character of a JSON string, or one escape, at the head of a text.  An escaped
surrogate pair is one character. -/
def readStringChar : List Char → Option (Char × List Char)
  | [] => none
  | c :: cs =>
    if c = '\\' then
      match cs with
      | [] => none
      | e :: r =>
        if e = '"' then some ('"', r)
        else if e = '\\' then some ('\\', r)
        else if e = '/' then some ('/', r)
        else if e = 'b' then some ('\x08', r)
        else if e = 'f' then some ('\x0c', r)
        else if e = 'n' then some ('\n', r)
        else if e = 'r' then some ('\r', r)
        else if e = 't' then some ('\t', r)
        else if e = 'u' then
          match r with
          | a :: b :: c1 :: d :: r1 =>
            match hex4 a b c1 d with
            | none => none
            | some n =>
              if 55296 ≤ n ∧ n < 56320 then
                match r1 with
                | '\\' :: 'u' :: a2 :: b2 :: c2 :: d2 :: r2 =>
                  match hex4 a2 b2 c2 d2 with
                  | some m =>
                    if 56320 ≤ m ∧ m < 57344 then
                      some (Char.ofNat (65536 + (n - 55296) * 1024 + (m - 56320)), r2)
                    else some (replacementChar, r1)
                  | none => some (replacementChar, r1)
                | _ => some (replacementChar, r1)
              else if 56320 ≤ n ∧ n < 57344 then some (replacementChar, r1)
              else some (Char.ofNat n, r1)
          | _ => none
        else none
    else if c.toNat < 32 then none
    else some (c, cs)

/-- The characters of a JSON string whose opening quote was read, up to the closing
quote. -/
def readString : Nat → List Char → Option (List Char × List Char)
  | 0, _ => none
  | fuel + 1, cs =>
    match cs with
    | [] => none
    | c :: r =>
      if c = '"' then some ([], r)
      else
        match readStringChar (c :: r) with
        | none => none
        | some (x, r1) =>
          match readString fuel r1 with
          | none => none
          | some (xs, r2) => some (x :: xs, r2)

mutual
/-- A JSON value at the head of a text, after white space. -/
def parseValue : Nat → List Char → Option (JsVal × List Char)
  | 0, _ => none
  | fuel + 1, cs =>
    match skipWs cs with
    | [] => none
    | c :: r =>
      if c = '"' then
        match readString (r.length + 1) r with
        | none => none
        | some (s, r1) => some (.str s, r1)
      else if c = '[' then
        match skipWs r with
        | ']' :: r1 => some (.arr [], r1)
        | _ =>
          match parseItems fuel r with
          | none => none
          | some (vs, r1) => some (.arr vs, r1)
      else if c = '\x7b' then
        match skipWs r with
        | '\x7d' :: r1 => some (.obj [], r1)
        | _ =>
          match parseFields fuel r with
          | none => none
          | some (fs, r1) => some (.obj fs, r1)
      else if c = 't' then
        match r with
        | 'r' :: 'u' :: 'e' :: r1 => some (.bool true, r1)
        | _ => none
      else if c = 'f' then
        match r with
        | 'a' :: 'l' :: 's' :: 'e' :: r1 => some (.bool false, r1)
        | _ => none
      else if c = 'n' then
        match r with
        | 'u' :: 'l' :: 'l' :: r1 => some (.null, r1)
        | _ => none
      else readNumber (c :: r)
/-- The elements of an array and its closing bracket. -/
def parseItems : Nat → List Char → Option (List JsVal × List Char)
  | 0, _ => none
  | fuel + 1, cs =>
    match parseValue fuel cs with
    | none => none
    | some (v, r) =>
      match skipWs r with
      | ',' :: r1 =>
        match parseItems fuel r1 with
        | none => none
        | some (vs, r2) => some (v :: vs, r2)
      | ']' :: r1 => some ([v], r1)
      | _ => none
/-- The members of an object and its closing brace. -/
def parseFields : Nat → List Char → Option (List (List Char × JsVal) × List Char)
  | 0, _ => none
  | fuel + 1, cs =>
    match skipWs cs with
    | '"' :: r =>
      match readString (r.length + 1) r with
      | none => none
      | some (k, r1) =>
        match skipWs r1 with
        | ':' :: r2 =>
          match parseValue fuel r2 with
          | none => none
          | some (v, r3) =>
            match skipWs r3 with
            | ',' :: r4 =>
              match parseFields fuel r4 with
              | none => none
              | some (fs, r5) => some ((k, v) :: fs, r5)
            | '\x7d' :: r4 => some ([(k, v)], r4)
            | _ => none
        | _ => none
    | _ => none
end

/-- The builtin `JSON.parse` (no reviver): the value of a JSON text, `none` where the
builtin throws a `SyntaxError`. -/
def jsonParse (text : String) : Option JsVal :=
  match parseValue (2 * text.data.length + 2) text.data with
  | none => none
  | some (v, rest) => if skipWs rest = [] then some v else none

/-- A text after which a JSON value ends: the end of the input, or a comma, a closing
bracket or a closing brace. -/
def Delimited (rest : List Char) : Prop :=
  ∀ c r, rest = c :: r → c = ',' ∨ c = ']' ∨ c = '\x7d'

mutual
/-- Whether every number of a JSON value is a non-negative integer numeral. -/
def JsVal.plain : JsVal → Bool
  | .numOther _ => false
  | .arr vs => plainItems vs
  | .obj fs => plainFields fs
  | _ => true
/-- Whether every element is plain. -/
def plainItems : List JsVal → Bool
  | [] => true
  | v :: vs => v.plain && plainItems vs
/-- Whether every member's value is plain. -/
def plainFields : List (List Char × JsVal) → Bool
  | [] => true
  | (_, v) :: fs => v.plain && plainFields fs
end

/-! ## The data model -/

/-- The four task keys `addProject` creates. -/
def taskKeys : List String := ["cull", "speeches", "featureFilm", "shortFilm"]

/-- A project record.  `tasks` is the object `project.tasks`: its own properties in
creation order, each with a boolean value.  `lastModified` is absent until the first
`updateTask`. -/
structure Project where
  id : String
  name : String
  date : String
  dateFormatted : String
  tasks : List (String × Bool)
  completed : Bool
  progress : Nat
  createdAt : String
  lastModified : Option String
deriving DecidableEq, Repr

/-- The second argument of `showNotification`. -/
inductive NoticeType where
  | info
  | success
  | error
deriving DecidableEq, Repr

/-- A call the program makes on the browser, in the order made. -/
inductive Effect where
  | alert (message : String) (type : NoticeType)
  | setItem (key : String) (value : String)
  | consoleInfo (message : String)
  | consoleWarn (message : String)
  | consoleError (message : String)
deriving DecidableEq, Repr

/-- The exception `localStorage.setItem` or `getItem` throws. -/
inductive StorageError where
  | quotaExceeded
  | other
deriving DecidableEq, Repr

/-- The browser's `localStorage`: what is stored under `weddingProjects`, whether access
is denied (every call throws), and how long a value it accepts (`none`: any length). -/
structure Storage where
  slot : Option String
  denied : Bool
  quota : Option Nat
deriving DecidableEq, Repr

/-- The call `localStorage.setItem('weddingProjects', value)`. -/
def Storage.setItem (s : Storage) (value : String) : Except StorageError Storage :=
  if s.denied then .error .other
  else
    match s.quota with
    | some q => if q < value.length then .error .quotaExceeded else .ok { s with slot := some value }
    | none => .ok { s with slot := some value }

/-- The call `localStorage.getItem('weddingProjects')`; `none` is JavaScript's `null`. -/
def Storage.getItem (s : Storage) : Except StorageError (Option String) :=
  if s.denied then .error .other else .ok s.slot

/-- A `ProjectManager` object together with the browser state its methods read and
write.  `chart` is `this.chart`: `none` while no chart was created, else the two numbers of
its data set.  `cards` are the children of `#projects-container`, each card standing for
the project record it shows; `none` when the document has no such element.  The cards are
taken to be the only elements of the document whose id is `project-` and a project's id.
`log` lists the calls made so far, oldest first. -/
structure ProjectManager where
  projects : List Project
  chart : Option (Nat × Nat)
  storage : Storage
  cards : Option (List Project)
  log : List Effect
deriving DecidableEq, Repr

/-- What the platform fixes: the time value `new Date(s)` holds (`none` for an invalid
date, whose time value is NaN), the text `toLocaleDateString` gives, and whether
`querySelector` accepts a selector text (it throws a `SyntaxError` otherwise). -/
structure Env where
  timeValue : String → Option Int
  formatDate : String → String
  selectorAccepted : String → Bool

/-- How a call of a method ends: the state it leaves and, when it ends by throwing, the
name of the exception. -/
structure Outcome where
  state : ProjectManager
  thrown : Option String
deriving DecidableEq, Repr

/-- The argument of `addProject`. -/
structure ProjectData where
  name : String
  date : String
deriving DecidableEq, Repr

/-! ## Serialisation of the collection -/

/-- The JSON value of a tasks object. -/
def tasksToJs (tasks : List (String × Bool)) : List (List Char × JsVal) :=
  tasks.map fun kv => (kv.1.data, JsVal.bool kv.2)

/-- The JSON value of a project record: its properties in creation order. -/
def Project.toJs (p : Project) : JsVal :=
  .obj ([("id".data, JsVal.str p.id.data),
         ("name".data, JsVal.str p.name.data),
         ("date".data, JsVal.str p.date.data),
         ("dateFormatted".data, JsVal.str p.dateFormatted.data),
         ("tasks".data, JsVal.obj (tasksToJs p.tasks)),
         ("completed".data, JsVal.bool p.completed),
         ("progress".data, JsVal.num p.progress),
         ("createdAt".data, JsVal.str p.createdAt.data)]
        ++ match p.lastModified with
           | some t => [("lastModified".data, JsVal.str t.data)]
           | none => [])

/-- The JSON value of `this.projects`. -/
def projectsToJs (ps : List Project) : JsVal := .arr (ps.map Project.toJs)

/-! ## The methods of `ProjectManager` -/

/-- Adds one call to the log. -/
def ProjectManager.emit (pm : ProjectManager) (e : Effect) : ProjectManager :=
  { pm with log := pm.log ++ [e] }

/-- The method `showNotification(message, type)`: an `alert`. -/
def showNotification (pm : ProjectManager) (message : String) (type : NoticeType) :
    ProjectManager :=
  pm.emit (.alert message type)

/-- The method `saveProjects()`. -/
def saveProjects (pm : ProjectManager) : ProjectManager :=
  let payload := stringify (projectsToJs pm.projects)
  let pm1 := pm.emit (.setItem "weddingProjects" payload)
  match pm1.storage.setItem payload with
  | .ok s => { pm1 with storage := s }
  | .error e =>
    let pm2 := pm1.emit (.consoleError "Error saving projects to localStorage:")
    match e with
    | .quotaExceeded =>
      showNotification pm2 "Storage limit exceeded. Try removing old projects." .error
    | .other =>
      showNotification pm2
        "Failed to save your projects. Please check your browser settings." .error

/-- The text `div.innerHTML` gives for the text a character stands for. -/
def escapeChar (c : Char) : List Char :=
  if c = '&' then "&amp;".data
  else if c = '<' then "&lt;".data
  else if c = '>' then "&gt;".data
  else if c = '\xa0' then "&nbsp;".data
  else [c]

/-- The method `sanitizeInput(input)`. -/
def sanitizeInput (input : String) : String :=
  String.mk (input.data.flatMap escapeChar)

/-- The comparator of `renderProjects`, `new Date(a.date) - new Date(b.date)`; `none` is
NaN. -/
def compareDates (env : Env) (a b : Project) : Option Int :=
  match env.timeValue a.date, env.timeValue b.date with
  | some x, some y => some (x - y)
  | _, _ => none

/-- Whether `Array.prototype.sort` keeps `a` before `b`: the comparator's value is not
positive, a NaN counting as zero. -/
def keepsBefore (cmp : α → α → Option Int) (a b : α) : Bool :=
  match cmp a b with
  | some d => decide (d ≤ 0)
  | none => true

/-- Puts `a` into a sorted list, in front of the first element it may stay before. -/
def sortInsert (cmp : α → α → Option Int) (a : α) : List α → List α
  | [] => [a]
  | b :: l => if keepsBefore cmp a b then a :: b :: l else b :: sortInsert cmp a l

/-- The builtin `Array.prototype.sort(cmp)` as a stable insertion sort. -/
def jsSort (cmp : α → α → Option Int) : List α → List α
  | [] => []
  | a :: l => sortInsert cmp a (jsSort cmp l)

/-- The constant `sortedProjects` of `renderProjects`: a sorted copy of the collection. -/
def sortedProjects (env : Env) (ps : List Project) : List Project :=
  jsSort (compareDates env) ps

/-- The method `renderProjects()`. -/
def renderProjects (env : Env) (pm : ProjectManager) : ProjectManager :=
  match pm.cards with
  | none => pm.emit (.consoleError "Projects container not found in DOM")
  | some _ =>
    if pm.projects.length = 0 then { pm with cards := some [] }
    else { pm with cards := some (sortedProjects env pm.projects) }

/-- The object `calculateCompletionData` returns. -/
structure CompletionData where
  totalProjects : Nat
  completedProjects : Nat
  completedPercentage : Nat
deriving DecidableEq, Repr

/-- The method `calculateCompletionData()`. -/
def calculateCompletionData (pm : ProjectManager) : CompletionData :=
  if pm.projects.length = 0 then ⟨0, 0, 0⟩
  else
    let totalProjects := pm.projects.length
    let completedProjects := (pm.projects.filter fun project => project.completed).length
    let completedPercentage := percent completedProjects totalProjects
    ⟨totalProjects, completedProjects, completedPercentage⟩

/-- The method `updateChart()`. -/
def updateChart (pm : ProjectManager) : ProjectManager :=
  match pm.chart with
  | none => pm.emit (.consoleWarn "Chart not initialized, cannot update")
  | some _ =>
    let completionData := calculateCompletionData pm
    { pm with chart := some (completionData.completedPercentage,
                             100 - completionData.completedPercentage) }

/-- Replaces the first element that satisfies `p`. -/
def replaceFirst (p : α → Bool) (b : α) : List α → List α
  | [] => []
  | a :: l => if p a then b :: l else a :: replaceFirst p b l

/-- The selector `updateProjectUI` looks a task's checkbox up with. -/
def checkboxSelector (taskName id : String) : String := "#" ++ taskName ++ "-" ++ id

/-- Whether `querySelector` accepts the selector of every task of the project. -/
def lookupsAccepted (env : Env) (project : Project) : Bool :=
  project.tasks.all fun kv => env.selectorAccepted (checkboxSelector kv.1 project.id)

/-- Whether the document holds a card of the project with this id. -/
def cardPresent (pm : ProjectManager) (id : String) : Bool :=
  match pm.cards with
  | none => false
  | some cs => cs.any fun c => c.id == id

/-- The method `updateProjectUI(project)`.  Without a card of the project it warns and
returns.  With one it looks up the checkbox of every task of the project: when every
selector is accepted the card shows the project's present data; when one is not,
`querySelector` throws and the call ends there (the card, then brought up to date in
part only, is kept as it was). -/
def updateProjectUI (env : Env) (pm : ProjectManager) (project : Project) : Outcome :=
  match pm.cards with
  | none =>
    ⟨pm.emit (.consoleWarn ("Project card for ID " ++ project.id ++ " not found in DOM")), none⟩
  | some cs =>
    if cs.any (fun c => c.id == project.id) then
      if lookupsAccepted env project then
        ⟨{ pm with cards := some (replaceFirst (fun c => c.id == project.id) project cs) }, none⟩
      else ⟨pm, some "SyntaxError"⟩
    else
      ⟨pm.emit (.consoleWarn ("Project card for ID " ++ project.id ++ " not found in DOM")),
        none⟩

/-- The array index a property name writes, if it is one: the decimal numeral, with no
leading zero, of a number below `2 ^ 32 - 1`. -/
def arrayIndex? (name : String) : Option Nat :=
  match name.data with
  | [] => none
  | d :: ds =>
    if (d :: ds).all isDigit = true ∧ ¬ (d = '0' ∧ ds ≠ [])
        ∧ digitsValue (d :: ds) ≤ 4294967294 then
      some (digitsValue (d :: ds))
    else none

/-- Whether the object has an own property of this name. -/
def hasOwn (tasks : List (String × Bool)) (name : String) : Bool :=
  tasks.any fun kv => kv.1 == name

/-- Gives the own property `name` the value `v`, in its place. -/
def replaceProp (tasks : List (String × Bool)) (name : String) (v : Bool) :
    List (String × Bool) :=
  match tasks with
  | [] => []
  | kv :: rest => if kv.1 = name then (name, v) :: rest else kv :: replaceProp rest name v

/-- Puts a new property whose name is the array index `i` where JavaScript lists it:
after the array indices below `i`, before every other property. -/
def insertIndexed (i : Nat) (name : String) (v : Bool) :
    List (String × Bool) → List (String × Bool)
  | [] => [(name, v)]
  | kv :: rest =>
    match arrayIndex? kv.1 with
    | some j => if j < i then kv :: insertIndexed i name v rest else (name, v) :: kv :: rest
    | none => (name, v) :: kv :: rest

/-- The operation `CreateDataProperty` on a tasks object, listed as `Object.keys` and
`JSON.stringify` list it: an own property keeps its place; a new one whose name is an
array index goes among the array indices, in ascending order, which come first; any
other new one goes last. -/
def defineProp (tasks : List (String × Bool)) (name : String) (v : Bool) :
    List (String × Bool) :=
  if hasOwn tasks name then replaceProp tasks name v
  else
    match arrayIndex? name with
    | some i => insertIndexed i name v tasks
    | none => tasks ++ [(name, v)]

/-- The assignment `tasks[taskName] = isCompleted`.  An own property gets the value.
Without one, the name `__proto__` reaches the setter of `Object.prototype`, which
ignores a boolean, so nothing changes; any other name becomes a new own property. -/
def setProp (tasks : List (String × Bool)) (taskName : String) (isCompleted : Bool) :
    List (String × Bool) :=
  if hasOwn tasks taskName then replaceProp tasks taskName isCompleted
  else if taskName = "__proto__" then tasks
  else defineProp tasks taskName isCompleted

/-- The text of the alert for a completed project. -/
def completionMessage (project : Project) : String :=
  "Project \"" ++ project.name ++ "\" is now complete!"

/-- The project `updateTask` leaves in the place of `project`.  `progress` is as in the
code where the tasks object has a property after the assignment; for an object left empty
(an empty one and the name `__proto__`) the code's `0 / 0` makes it NaN, a value a
`Project` does not hold, and `percent` gives 0. -/
def updatedProject (stamp : String) (project : Project) (taskName : String)
    (isCompleted : Bool) : Project :=
  let tasks := setProp project.tasks taskName isCompleted
  let taskCount := tasks.length
  let completedTasks := (tasks.filter fun kv => kv.2).length
  { project with
    tasks := tasks
    progress := percent completedTasks taskCount
    completed := decide (completedTasks = taskCount)
    lastModified := some stamp }

/-- The method `updateTask(projectId, taskName, isCompleted)`; `stamp` is the text
`new Date().toISOString()` gives at the call.  What `updateProjectUI` throws is not
caught: the call then ends after the project was changed and saved, before the chart is
updated and before the completion alert. -/
def updateTask (env : Env) (stamp : String) (projectId taskName : String)
    (isCompleted : Bool) (pm : ProjectManager) : Outcome :=
  match pm.projects.find? (fun p => p.id == projectId) with
  | some found =>
    let project := updatedProject stamp found taskName isCompleted
    let pm1 := { pm with projects := replaceFirst (fun p => p.id == projectId) project pm.projects }
    let pm2 := saveProjects pm1
    let ui := updateProjectUI env pm2 project
    match ui.thrown with
    | some e => ⟨ui.state, some e⟩
    | none =>
      let pm4 := updateChart ui.state
      if project.completed then
        ⟨showNotification pm4 (completionMessage project) .success, none⟩
      else ⟨pm4, none⟩
  | none => ⟨pm.emit (.consoleError ("Project with ID " ++ projectId ++ " not found")), none⟩

/-- The method `addProject(projectData)`; `now` is the value of `Date.now()` and `stamp`
the text `new Date().toISOString()` gives at the call. -/
def addProject (env : Env) (now : Nat) (stamp : String) (projectData : ProjectData)
    (pm : ProjectManager) : ProjectManager :=
  if projectData.name = "" ∨ projectData.date = "" then
    showNotification pm "Project name and date are required" .error
  else
    let newProject : Project :=
      { id := String.mk (natDigits now)
        name := sanitizeInput projectData.name
        date := projectData.date
        dateFormatted := env.formatDate projectData.date
        tasks := [("cull", false), ("speeches", false), ("featureFilm", false),
                  ("shortFilm", false)]
        completed := false
        progress := 0
        createdAt := stamp
        lastModified := none }
    let pm1 := { pm with projects := pm.projects ++ [newProject] }
    let pm2 := saveProjects pm1
    let pm3 := renderProjects env pm2
    let pm4 := updateChart pm3
    showNotification pm4 ("Project \"" ++ newProject.name ++ "\" added successfully") .success

/-! ## Reading the collection back -/

/-- The tasks object `JSON.parse` builds from the members of a JSON object: properties are
created in the order of the text and a repeated name overwrites.  `none` when a value is
not a boolean. -/
def tasksOfJs : List (List Char × JsVal) → List (String × Bool) → Option (List (String × Bool))
  | [], acc => some acc
  | (k, .bool b) :: fs, acc => tasksOfJs fs (defineProp acc (String.mk k) b)
  | _ :: _, _ => none

/-- The greatest integer below which every integer is a double, `2 ^ 53 - 1`. -/
def maxSafeInteger : Nat := 9007199254740991

/-- The project record a JSON value stands for: an object with the properties of a
project in creation order, each of its type.  `none` for any other value. -/
def Project.ofJs : JsVal → Option Project
  | .obj ((k1, .str id) :: (k2, .str name) :: (k3, .str date) :: (k4, .str dateFormatted)
      :: (k5, .obj tasks) :: (k6, .bool completed) :: (k7, .num progress)
      :: (k8, .str createdAt) :: more) =>
    if k1 = "id".data ∧ k2 = "name".data ∧ k3 = "date".data ∧ k4 = "dateFormatted".data
        ∧ k5 = "tasks".data ∧ k6 = "completed".data ∧ k7 = "progress".data
        ∧ k8 = "createdAt".data ∧ progress ≤ maxSafeInteger then
      match tasksOfJs tasks [], more with
      | some ts, [] =>
        some ⟨String.mk id, String.mk name, String.mk date, String.mk dateFormatted, ts,
          completed, progress, String.mk createdAt, none⟩
      | some ts, [(k9, .str lastModified)] =>
        if k9 = "lastModified".data then
          some ⟨String.mk id, String.mk name, String.mk date, String.mk dateFormatted, ts,
            completed, progress, String.mk createdAt, some (String.mk lastModified)⟩
        else none
      | _, _ => none
    else none
  | _ => none

/-- The projects a list of JSON values stands for. -/
def projectsOfItems : List JsVal → Option (List Project)
  | [] => some []
  | v :: vs =>
    match Project.ofJs v, projectsOfItems vs with
    | some p, some ps => some (p :: ps)
    | _, _ => none

/-- The collection a JSON value stands for, when it is an array of project records. -/
def projectsOfJs : JsVal → Option (List Project)
  | .arr vs => projectsOfItems vs
  | _ => none

/-- How `loadProjects` ends.  `done`: it returned, leaving this state.  `untyped`: the
value `raw`, which `JSON.parse` gave and which is no array of project records, was
assigned to `this.projects`; what `console.info` and `renderProjects` do with such a value
(they may throw) is outside this model. -/
inductive LoadResult where
  | done (pm : ProjectManager)
  | untyped (raw : JsVal) (pm : ProjectManager)

/-- The `catch` block of `loadProjects`. -/
def loadFailed (pm : ProjectManager) : ProjectManager :=
  showNotification
    ({ pm with projects := [] }.emit (.consoleError "Error loading projects from localStorage:"))
    "Error loading saved projects. Starting with empty project list." .error

/-- The method `loadProjects()`. -/
def loadProjects (env : Env) (pm : ProjectManager) : LoadResult :=
  match pm.storage.getItem with
  | .error _ => .done (renderProjects env (loadFailed pm))
  | .ok none => .done (renderProjects env pm)
  | .ok (some savedProjects) =>
    if savedProjects = "" then .done (renderProjects env pm)
    else
      match jsonParse savedProjects with
      | none => .done (renderProjects env (loadFailed pm))
      | some .null => .done (renderProjects env (loadFailed pm))
      | some v =>
        match projectsOfJs v with
        | some ps =>
          .done (renderProjects env
            ({ pm with projects := ps }.emit
              (.consoleInfo ("Loaded " ++ String.mk (natDigits ps.length)
                ++ " projects from localStorage"))))
        | none => .untyped v pm

/-- The state `loadProjects` leaves when it returns. -/
def LoadResult.state? : LoadResult → Option ProjectManager
  | .done pm => some pm
  | .untyped _ _ => none

/-- Whether JavaScript lists a property named `a` before one named `b` whatever the order
they were created in, or leaves that to the order of creation: it is not so only when `b`
is an array index and `a` is none or a greater one. -/
def listedBefore (a b : String) : Prop :=
  match arrayIndex? a, arrayIndex? b with
  | some i, some j => i < j
  | none, some _ => False
  | _, none => True

instance (a b : String) : Decidable (listedBefore a b) := by
  unfold listedBefore
  split <;> infer_instance

/-- A project record as it is in the browser: the names of its tasks are distinct and
stand in the order in which the properties of an object are listed (array indices first,
ascending), and its `progress` is an integer held exactly. -/
def Project.WellFormed (p : Project) : Prop :=
  ((p.tasks.map Prod.fst).Nodup ∧ (p.tasks.map Prod.fst).Pairwise listedBefore)
    ∧ p.progress ≤ maxSafeInteger

/-! ## Sequences of calls -/

/-- One call of `addProject`: the value `Date.now()` has at the call, the text
`new Date().toISOString()` gives, and the argument. -/
structure AddCall where
  now : Nat
  stamp : String
  data : ProjectData
deriving DecidableEq, Repr

/-- The calls of `addProject` made one after the other, the first of the list first. -/
def addProjects (env : Env) : List AddCall → ProjectManager → ProjectManager
  | [], pm => pm
  | c :: cs, pm => addProjects env cs (addProject env c.now c.stamp c.data pm)

/-- Whether `addProject` accepts the call: name and date are not empty. -/
def AddCall.accepted (c : AddCall) : Prop := c.data.name ≠ "" ∧ c.data.date ≠ ""

instance (c : AddCall) : Decidable c.accepted := by
  unfold AddCall.accepted
  infer_instance

/-! ## What the claims speak of -/

/-- Whether the wedding date of `a` is not after that of `b`; an invalid date is in
order with every date. -/
def datesAscend (env : Env) (a b : Project) : Bool :=
  match env.timeValue a.date, env.timeValue b.date with
  | some x, some y => decide (x ≤ y)
  | _, _ => true

/-- A sequence of projects ordered by date ascending: no project stands before one of an
earlier date. -/
def DateAscending (env : Env) (l : List Project) : Prop :=
  l.Pairwise fun a b => datesAscend env a b = true

instance (env : Env) (l : List Project) : Decidable (DateAscending env l) := by
  unfold DateAscending
  infer_instance

/-! ## Example stores -/

/-- Whether a character may start a CSS identifier: a letter, an underscore or a
character outside ASCII. -/
def isNameStart (c : Char) : Bool := c.isAlpha || c = '_' || decide (128 ≤ c.toNat)

/-- Whether a character may stand inside a CSS identifier. -/
def isNameChar (c : Char) : Bool := isNameStart c || isDigit c || c = '-'

/-- Whether a text is a CSS identifier written without escapes. -/
def isCssIdent : List Char → Bool
  | '-' :: '-' :: rest => rest.all isNameChar
  | '-' :: c :: rest => isNameStart c && rest.all isNameChar
  | c :: rest => isNameStart c && rest.all isNameChar
  | [] => false

/-- Whether a text is an id selector `#name` with `name` a CSS identifier written without
escapes. -/
def isIdSelector (selector : String) : Bool :=
  match selector.data with
  | '#' :: name => isCssIdent name
  | _ => false

/-- A platform for the examples: two wedding dates with their time values (milliseconds
since 1970, UTC midnight) and texts, any other text being an invalid date; of the
selectors, the id selectors `#name` are accepted (the examples use no other). -/
def demoEnv : Env where
  timeValue := fun s =>
    if s = "2025-03-01" then some 1740787200000
    else if s = "2025-01-01" then some 1735689600000
    else none
  formatDate := fun s =>
    if s = "2025-03-01" then "March 1, 2025"
    else if s = "2025-01-01" then "January 1, 2025"
    else "Invalid Date"
  selectorAccepted := isIdSelector

/-- A project as `addProject` makes it, with the four tasks set to `done`. -/
def demoProject (id date : String) (done : Bool) : Project where
  id := id
  name := "Smith Wedding"
  date := date
  dateFormatted := demoEnv.formatDate date
  tasks := [("cull", done), ("speeches", done), ("featureFilm", done), ("shortFilm", done)]
  completed := done
  progress := if done then 100 else 0
  createdAt := "2025-01-01T10:00:00.000Z"
  lastModified := none

/-- A manager holding `ps`, in a page with an empty container and a chart, and with a
working, empty `localStorage`. -/
def demoManager (ps : List Project) : ProjectManager where
  projects := ps
  chart := some (0, 100)
  storage := ⟨none, false, none⟩
  cards := some []
  log := []

/-- A manager holding `ps` in a page that shows a card for each of them, in their order;
otherwise as `demoManager`. -/
def renderedManager (ps : List Project) : ProjectManager :=
  { demoManager ps with cards := some ps }

/-- A manager holding `ps` whose `localStorage` holds nothing under the program's key and
takes no text longer than 100 characters; otherwise as `demoManager`. -/
def fullStorageManager (ps : List Project) : ProjectManager :=
  { demoManager ps with storage := ⟨none, false, some 100⟩ }

/-- The text of a collection of one project, a new "Jones Wedding". -/
def jonesWeddingText : String :=
  "[\x7b\"id\":\"1735689600002\",\"name\":\"Jones Wedding\",\"date\":\"2025-01-01\",\"dateFormatted\":\"January 1, 2025\",\"tasks\":\x7b\"cull\":false,\"speeches\":false,\"featureFilm\":false,\"shortFilm\":false\x7d,\"completed\":false,\"progress\":0,\"createdAt\":\"2025-01-01T10:00:00.000Z\"\x7d]"

/-- The text of a collection of two projects: a complete "Smith Wedding" and a new "Jones
Wedding". -/
def twoWeddingsText : String :=
  "[\x7b\"id\":\"1735689600000\",\"name\":\"Smith Wedding\",\"date\":\"2025-03-01\",\"dateFormatted\":\"March 1, 2025\",\"tasks\":\x7b\"cull\":true,\"speeches\":true,\"featureFilm\":true,\"shortFilm\":true\x7d,\"completed\":true,\"progress\":100,\"createdAt\":\"2025-01-01T10:00:00.000Z\"\x7d,\x7b\"id\":\"1735689600002\",\"name\":\"Jones Wedding\",\"date\":\"2025-01-01\",\"dateFormatted\":\"January 1, 2025\",\"tasks\":\x7b\"cull\":false,\"speeches\":false,\"featureFilm\":false,\"shortFilm\":false\x7d,\"completed\":false,\"progress\":0,\"createdAt\":\"2025-01-01T10:00:00.000Z\"\x7d]"

/-- The text of a collection of one complete project to which the task `1` was added:
the new task is listed first. -/
def indexTaskText : String :=
  "[\x7b\"id\":\"1735689600000\",\"name\":\"Smith Wedding\",\"date\":\"2025-03-01\",\"dateFormatted\":\"March 1, 2025\",\"tasks\":\x7b\"1\":true,\"cull\":true,\"speeches\":true,\"featureFilm\":true,\"shortFilm\":true\x7d,\"completed\":true,\"progress\":100,\"createdAt\":\"2025-01-01T10:00:00.000Z\",\"lastModified\":\"2025-01-02T09:00:00.000Z\"\x7d]"

/-- Forty projects with distinct ids, the first twenty-three of them complete. -/
def fortyProjects : List Project :=
  (List.range 40).map fun i =>
    demoProject (String.mk (natDigits (1735689600000 + i))) "2025-03-01" (decide (i < 23))


/-- Three projects in insertion order: 1 March 2025, a text that is no date, 1 January
2025. -/
def mixedDates : List Project :=
  [demoProject "1735689600000" "2025-03-01" false,
   demoProject "1735689600001" "not a date" false,
   demoProject "1735689600002" "2025-01-01" false]

/-- A stored payload that parses: one project record whose tasks object has only the key
`cull`. -/
def shortTasksPayload : String :=
  "[\x7b\"id\":\"1735689600000\",\"name\":\"Smith Wedding\",\"date\":\"2025-03-01\",\"dateFormatted\":\"March 1, 2025\",\"tasks\":\x7b\"cull\":false\x7d,\"completed\":false,\"progress\":0,\"createdAt\":\"2025-01-01T10:00:00.000Z\"\x7d]"

/-- The project record of `shortTasksPayload`. -/
def shortTasksProject : Project :=
  { demoProject "1735689600000" "2025-03-01" false with tasks := [("cull", false)] }

/-- A manager with no projects whose `localStorage` holds `payload`. -/
def managerWithStored (payload : String) : ProjectManager :=
  { demoManager [] with storage := ⟨some payload, false, none⟩ }

/-- Two accepted calls of `addProject` whose clock readings are the same millisecond. -/
def sameMillisecond : List AddCall :=
  [⟨1735689600000, "2025-01-01T00:00:00.000Z", ⟨"Smith Wedding", "2025-03-01"⟩⟩,
   ⟨1735689600000, "2025-01-01T00:00:00.000Z", ⟨"Jones Wedding", "2025-01-01"⟩⟩]

/-! ## Frame lemmas: which fields each method leaves alone -/

@[simp] theorem emit_projects (pm : ProjectManager) (e : Effect) :
    (pm.emit e).projects = pm.projects := rfl

@[simp] theorem emit_storage (pm : ProjectManager) (e : Effect) :
    (pm.emit e).storage = pm.storage := rfl

@[simp] theorem emit_log (pm : ProjectManager) (e : Effect) :
    (pm.emit e).log = pm.log ++ [e] := rfl

@[simp] theorem showNotification_projects (pm : ProjectManager) (m : String) (t : NoticeType) :
    (showNotification pm m t).projects = pm.projects := rfl

@[simp] theorem showNotification_storage (pm : ProjectManager) (m : String) (t : NoticeType) :
    (showNotification pm m t).storage = pm.storage := rfl

@[simp] theorem showNotification_log (pm : ProjectManager) (m : String) (t : NoticeType) :
    (showNotification pm m t).log = pm.log ++ [.alert m t] := rfl

@[simp] theorem saveProjects_projects (pm : ProjectManager) :
    (saveProjects pm).projects = pm.projects := by
  unfold saveProjects
  simp only []
  split
  · rfl
  · split <;> rfl

@[simp] theorem renderProjects_projects (env : Env) (pm : ProjectManager) :
    (renderProjects env pm).projects = pm.projects := by
  unfold renderProjects
  split
  · rfl
  · split <;> rfl

@[simp] theorem renderProjects_storage (env : Env) (pm : ProjectManager) :
    (renderProjects env pm).storage = pm.storage := by
  unfold renderProjects
  split
  · rfl
  · split <;> rfl

@[simp] theorem updateChart_projects (pm : ProjectManager) :
    (updateChart pm).projects = pm.projects := by
  unfold updateChart
  split <;> rfl

@[simp] theorem updateChart_storage (pm : ProjectManager) :
    (updateChart pm).storage = pm.storage := by
  unfold updateChart
  split <;> rfl

@[simp] theorem updateProjectUI_projects (env : Env) (pm : ProjectManager) (p : Project) :
    (updateProjectUI env pm p).state.projects = pm.projects := by
  unfold updateProjectUI
  split
  · rfl
  · split
    · split <;> rfl
    · rfl

@[simp] theorem updateProjectUI_storage (env : Env) (pm : ProjectManager) (p : Project) :
    (updateProjectUI env pm p).state.storage = pm.storage := by
  unfold updateProjectUI
  split
  · rfl
  · split
    · split <;> rfl
    · rfl

@[simp] theorem saveProjects_cards (pm : ProjectManager) :
    (saveProjects pm).cards = pm.cards := by
  unfold saveProjects
  simp only []
  split
  · rfl
  · split <;> rfl

/-- What a method adds to the log: the calls other than alerts of type `success` that
follow the old log.  Every method only appends. -/
theorem saveProjects_log (pm : ProjectManager) :
    ∃ es, (saveProjects pm).log
        = pm.log ++ .setItem "weddingProjects" (stringify (projectsToJs pm.projects)) :: es
      ∧ ∀ m, Effect.alert m .success ∉ es := by
  unfold saveProjects
  simp only []
  split
  · exact ⟨[], by simp [ProjectManager.emit], by simp⟩
  · split
    · exact ⟨[.consoleError "Error saving projects to localStorage:",
        .alert "Storage limit exceeded. Try removing old projects." .error],
        by simp [showNotification, ProjectManager.emit], by simp⟩
    · exact ⟨[.consoleError "Error saving projects to localStorage:",
        .alert "Failed to save your projects. Please check your browser settings." .error],
        by simp [showNotification, ProjectManager.emit], by simp⟩

theorem renderProjects_log (env : Env) (pm : ProjectManager) :
    ∃ es, (renderProjects env pm).log = pm.log ++ es ∧ (∀ m t, Effect.alert m t ∉ es)
      ∧ ∀ k v, Effect.setItem k v ∉ es := by
  unfold renderProjects
  split
  · exact ⟨[_], rfl, by simp⟩
  · split <;> exact ⟨[], by simp, by simp⟩

theorem updateChart_log (pm : ProjectManager) :
    ∃ es, (updateChart pm).log = pm.log ++ es ∧ (∀ m t, Effect.alert m t ∉ es)
      ∧ ∀ k v, Effect.setItem k v ∉ es := by
  unfold updateChart
  split
  · exact ⟨[_], rfl, by simp⟩
  · exact ⟨[], by simp, by simp⟩

theorem updateProjectUI_log (env : Env) (pm : ProjectManager) (p : Project) :
    ∃ es, (updateProjectUI env pm p).state.log = pm.log ++ es
      ∧ (∀ m t, Effect.alert m t ∉ es)
      ∧ ∀ k v, Effect.setItem k v ∉ es := by
  unfold updateProjectUI
  split
  · exact ⟨[_], rfl, by simp⟩
  · split
    · split <;> exact ⟨[], by simp, by simp⟩
    · exact ⟨[_], rfl, by simp⟩

/-- `updateProjectUI` returns exactly when the project has no card or every checkbox
selector is accepted. -/
theorem updateProjectUI_thrown (env : Env) (pm : ProjectManager) (p : Project) :
    (updateProjectUI env pm p).thrown = none
      ↔ (cardPresent pm p.id = true → lookupsAccepted env p = true) := by
  unfold updateProjectUI cardPresent
  split
  · simp
  · next cs _ =>
    by_cases hany : (cs.any fun c => c.id == p.id) = true
    · by_cases hacc : lookupsAccepted env p = true
      · simp [hany, hacc]
      · simp [hany, hacc]
    · simp [hany]


/-! ## Lists: `find`, the in-place update and property assignment -/

theorem find?_replaceFirst {α : Type} (p : α → Bool) (b : α) (l : List α) (a : α)
    (hfind : l.find? p = some a) (hb : p b = true) :
    (replaceFirst p b l).find? p = some b := by
  induction l with
  | nil => simp at hfind
  | cons x l ih =>
    by_cases hx : p x = true
    · simp [replaceFirst, hx, hb]
    · simp only [Bool.not_eq_true] at hx
      simp only [List.find?, hx] at hfind
      simp [replaceFirst, hx, ih hfind]

theorem replaceFirst_of_find?_none {α : Type} (p : α → Bool) (b : α) (l : List α)
    (hfind : l.find? p = none) : replaceFirst p b l = l := by
  induction l with
  | nil => rfl
  | cons x l ih =>
    by_cases hx : p x = true
    · simp [List.find?, hx] at hfind
    · simp only [Bool.not_eq_true] at hx
      simp only [List.find?, hx] at hfind
      simp [replaceFirst, hx, ih hfind]

theorem hasOwn_iff (tasks : List (String × Bool)) (k : String) :
    hasOwn tasks k = true ↔ k ∈ tasks.map Prod.fst := by
  induction tasks with
  | nil => simp [hasOwn]
  | cons kv rest ih =>
    have : hasOwn (kv :: rest) k = (kv.1 == k || hasOwn rest k) := rfl
    rw [this, Bool.or_eq_true, ih, List.map_cons, List.mem_cons, beq_iff_eq]
    constructor
    · rintro (h | h)
      · exact Or.inl h.symm
      · exact Or.inr h
    · rintro (h | h)
      · exact Or.inl h.symm
      · exact Or.inr h

theorem filter_ne_self (tasks : List (String × Bool)) (k : String)
    (hk : k ∉ tasks.map Prod.fst) : tasks.filter (fun kv => !(kv.1 == k)) = tasks := by
  induction tasks with
  | nil => rfl
  | cons kv rest ih =>
    simp only [List.map_cons, List.mem_cons, not_or] at hk
    have hne : (!(kv.1 == k)) = true := by
      rw [Bool.not_eq_true', beq_eq_false_iff_ne]
      exact fun h => hk.1 h.symm
    rw [List.filter_cons_of_pos (p := fun kv : String × Bool => !(kv.1 == k)) hne, ih hk.2]

theorem filter_ne_cons_self (tasks : List (String × Bool)) (k : String) (v : Bool) :
    ((k, v) :: tasks).filter (fun kv => !(kv.1 == k))
      = tasks.filter (fun kv => !(kv.1 == k)) := by
  apply List.filter_cons_of_neg (p := fun kv : String × Bool => !(kv.1 == k))
  simp

theorem replaceProp_keys (tasks : List (String × Bool)) (k : String) (v : Bool) :
    (replaceProp tasks k v).map Prod.fst = tasks.map Prod.fst := by
  induction tasks with
  | nil => rfl
  | cons kv rest ih =>
    by_cases h : kv.1 = k
    · simp [replaceProp, h]
    · simp [replaceProp, h, ih]

theorem replaceProp_mem (tasks : List (String × Bool)) (k : String) (v : Bool)
    (hk : k ∈ tasks.map Prod.fst) : (k, v) ∈ replaceProp tasks k v := by
  induction tasks with
  | nil => simp at hk
  | cons kv rest ih =>
    by_cases h : kv.1 = k
    · simp [replaceProp, h]
    · have : k ∈ rest.map Prod.fst := by
        simp only [List.map_cons, List.mem_cons] at hk
        rcases hk with hk | hk
        · exact absurd hk.symm h
        · exact hk
      simp [replaceProp, h, ih this]

theorem insertIndexed_perm (i : Nat) (k : String) (v : Bool) (tasks : List (String × Bool)) :
    (insertIndexed i k v tasks).Perm ((k, v) :: tasks) := by
  induction tasks with
  | nil => exact List.Perm.refl _
  | cons kv rest ih =>
    unfold insertIndexed
    split
    · split
      · exact (List.Perm.cons kv ih).trans (List.Perm.swap (k, v) kv rest)
      · exact List.Perm.refl _
    · exact List.Perm.refl _

theorem insertIndexed_filter (i : Nat) (k : String) (v : Bool) (tasks : List (String × Bool))
    (hk : k ∉ tasks.map Prod.fst) :
    (insertIndexed i k v tasks).filter (fun kv => !(kv.1 == k)) = tasks := by
  induction tasks with
  | nil => exact filter_ne_cons_self [] k v
  | cons kv rest ih =>
    have hall := filter_ne_self (kv :: rest) k hk
    simp only [List.map_cons, List.mem_cons, not_or] at hk
    have hne : (!(kv.1 == k)) = true := by
      rw [Bool.not_eq_true', beq_eq_false_iff_ne]
      exact fun h => hk.1 h.symm
    unfold insertIndexed
    split
    · split
      · rw [List.filter_cons_of_pos (p := fun kv : String × Bool => !(kv.1 == k)) hne, ih hk.2]
      · rw [filter_ne_cons_self, hall]
    · rw [filter_ne_cons_self, hall]

/-- A new own property: one more property, the others as they were and in their order. -/
theorem defineProp_new (tasks : List (String × Bool)) (k : String) (v : Bool)
    (hk : k ∉ tasks.map Prod.fst) :
    (defineProp tasks k v).Perm ((k, v) :: tasks)
      ∧ (defineProp tasks k v).filter (fun kv => !(kv.1 == k)) = tasks := by
  have hown : hasOwn tasks k = false := by
    rw [Bool.eq_false_iff]
    exact fun h => hk ((hasOwn_iff tasks k).1 h)
  unfold defineProp
  simp only [hown, Bool.false_eq_true, if_false]
  split
  · next i _ => exact ⟨insertIndexed_perm i k v tasks, insertIndexed_filter i k v tasks hk⟩
  · refine ⟨List.perm_append_comm, ?_⟩
    rw [List.filter_append, filter_ne_self tasks k hk]
    have : [(k, v)].filter (fun kv => !(kv.1 == k)) = [] := by
      rw [filter_ne_cons_self]
      rfl
    rw [this, List.append_nil]

theorem setProp_keys_of_mem (tasks : List (String × Bool)) (k : String) (v : Bool)
    (hk : k ∈ tasks.map Prod.fst) :
    (setProp tasks k v).map Prod.fst = tasks.map Prod.fst := by
  unfold setProp
  simp only [(hasOwn_iff tasks k).2 hk, if_true]
  exact replaceProp_keys tasks k v

theorem setProp_of_not_mem (tasks : List (String × Bool)) (k : String) (v : Bool)
    (hk : k ∉ tasks.map Prod.fst) (hproto : k ≠ "__proto__") :
    setProp tasks k v = defineProp tasks k v := by
  have hown : hasOwn tasks k = false := by
    rw [Bool.eq_false_iff]
    exact fun h => hk ((hasOwn_iff tasks k).1 h)
  unfold setProp
  simp [hown, hproto]

theorem setProp_mem (tasks : List (String × Bool)) (k : String) (v : Bool)
    (hproto : k ≠ "__proto__") : (k, v) ∈ setProp tasks k v := by
  by_cases hk : k ∈ tasks.map Prod.fst
  · unfold setProp
    simp only [(hasOwn_iff tasks k).2 hk, if_true]
    exact replaceProp_mem tasks k v hk
  · rw [setProp_of_not_mem tasks k v hk hproto]
    exact (defineProp_new tasks k v hk).1.symm.subset (List.mem_cons_self _ _)

theorem setProp_keys_subset (tasks : List (String × Bool)) (k : String) (v : Bool) :
    ∀ x ∈ (setProp tasks k v).map Prod.fst, x ∈ k :: tasks.map Prod.fst := by
  intro x hx
  by_cases hk : k ∈ tasks.map Prod.fst
  · rw [setProp_keys_of_mem tasks k v hk] at hx
    exact List.mem_cons_of_mem _ hx
  · by_cases hproto : k = "__proto__"
    · have hown : hasOwn tasks k = false := by
        rw [Bool.eq_false_iff]
        exact fun h => hk ((hasOwn_iff tasks k).1 h)
      have : setProp tasks k v = tasks := by
        unfold setProp
        rw [hown]
        simp [hproto]
      rw [this] at hx
      exact List.mem_cons_of_mem _ hx
    · rw [setProp_of_not_mem tasks k v hk hproto] at hx
      have hperm := ((defineProp_new tasks k v hk).1.map Prod.fst)
      simpa using hperm.subset hx

theorem percent_four (k : Nat) (hk : k ≤ 4) :
    percent k 4 = roundHalfUp (100 * k) 4 ∧ percent k 4 = 25 * k := by
  interval_cases k <;> decide

theorem percent_five (k : Nat) (hk : k ≤ 5) :
    percent k 5 = roundHalfUp (100 * k) 5 ∧ percent k 5 = 20 * k := by
  interval_cases k <;> decide

theorem updateTask_projects_of_find (env : Env) (stamp projectId taskName : String)
    (isCompleted : Bool) (pm : ProjectManager) (p : Project)
    (hfind : pm.projects.find? (fun q => q.id == projectId) = some p) :
    (updateTask env stamp projectId taskName isCompleted pm).state.projects
      = replaceFirst (fun q => q.id == projectId)
          (updatedProject stamp p taskName isCompleted) pm.projects := by
  unfold updateTask
  simp only [hfind]
  split
  · simp
  · split <;> simp

theorem updateTask_find (env : Env) (stamp projectId taskName : String) (isCompleted : Bool)
    (pm : ProjectManager) (p : Project)
    (hfind : pm.projects.find? (fun q => q.id == projectId) = some p) :
    (updateTask env stamp projectId taskName isCompleted pm).state.projects.find?
        (fun q => q.id == projectId)
      = some (updatedProject stamp p taskName isCompleted) := by
  rw [updateTask_projects_of_find _ _ _ _ _ _ _ hfind]
  apply find?_replaceFirst _ _ _ _ hfind
  have := List.find?_some hfind
  simpa [updatedProject] using this

theorem filter_length_le_four (tasks : List (String × Bool)) (n : Nat)
    (h : tasks.length = n) : (tasks.filter fun kv => kv.2).length ≤ n :=
  h ▸ List.length_filter_le _ _

theorem filter_length_lt_of_false (tasks : List (String × Bool)) (k : String)
    (hk : (k, false) ∈ tasks) : (tasks.filter fun kv => kv.2).length < tasks.length := by
  induction tasks with
  | nil => simp at hk
  | cons kv rest ih =>
    simp only [List.mem_cons] at hk
    rcases hk with hk | hk
    · subst hk
      simpa [List.filter] using Nat.lt_succ_of_le (List.length_filter_le _ rest)
    · have := ih hk
      by_cases hv : kv.2 = true
      · simpa [List.filter, hv] using this
      · simp only [Bool.not_eq_true] at hv
        simp only [List.filter, hv, List.length_cons]
        omega


theorem updateTask_tail (env : Env) (pm1 : ProjectManager) (q : Project) :
    ∃ es,
      (match (updateProjectUI env (saveProjects pm1) q).thrown with
        | some e => (⟨(updateProjectUI env (saveProjects pm1) q).state, some e⟩ : Outcome)
        | none =>
          if q.completed = true then
            ⟨showNotification (updateChart (updateProjectUI env (saveProjects pm1) q).state)
              (completionMessage q) .success, none⟩
          else ⟨updateChart (updateProjectUI env (saveProjects pm1) q).state, none⟩).state.log
        = pm1.log ++ es
      ∧ (match (updateProjectUI env (saveProjects pm1) q).thrown with
        | some e => (⟨(updateProjectUI env (saveProjects pm1) q).state, some e⟩ : Outcome)
        | none =>
          if q.completed = true then
            ⟨showNotification (updateChart (updateProjectUI env (saveProjects pm1) q).state)
              (completionMessage q) .success, none⟩
          else ⟨updateChart (updateProjectUI env (saveProjects pm1) q).state, none⟩).thrown
        = (updateProjectUI env (saveProjects pm1) q).thrown
      ∧ Effect.setItem "weddingProjects" (stringify (projectsToJs pm1.projects)) ∈ es
      ∧ ∀ m, Effect.alert m .success ∈ es ↔
          ((updateProjectUI env (saveProjects pm1) q).thrown = none
            ∧ q.completed = true ∧ m = completionMessage q) := by
  obtain ⟨es2, h2, n2⟩ := saveProjects_log pm1
  obtain ⟨es3, h3, n3, -⟩ := updateProjectUI_log env (saveProjects pm1) q
  obtain ⟨es4, h4, n4, -⟩ := updateChart_log (updateProjectUI env (saveProjects pm1) q).state
  cases hthrown : (updateProjectUI env (saveProjects pm1) q).thrown with
  | some e =>
    refine ⟨(Effect.setItem "weddingProjects" (stringify (projectsToJs pm1.projects)) :: es2)
      ++ es3, ?_, rfl, by simp, ?_⟩
    · simp [h3, h2]
    · intro m
      simp [n2, n3]
  | none =>
    by_cases hc : q.completed = true
    · refine ⟨(Effect.setItem "weddingProjects" (stringify (projectsToJs pm1.projects)) :: es2)
        ++ es3 ++ es4 ++ [.alert (completionMessage q) .success], ?_, ?_, by simp, ?_⟩
      · simp [hc, h4, h3, h2]
      · simp [hc]
      · intro m
        simp [hc, n2, n3, n4]
    · refine ⟨(Effect.setItem "weddingProjects" (stringify (projectsToJs pm1.projects)) :: es2)
        ++ es3 ++ es4, ?_, ?_, by simp, ?_⟩
      · simp [hc, h4, h3, h2]
      · simp [hc]
      · intro m
        simp [hc, n2, n3, n4]

theorem updateTask_log_of_find (env : Env) (stamp projectId taskName : String)
    (isCompleted : Bool) (pm : ProjectManager) (p : Project)
    (hfind : pm.projects.find? (fun q => q.id == projectId) = some p) :
    ∃ es, (updateTask env stamp projectId taskName isCompleted pm).state.log = pm.log ++ es
      ∧ Effect.setItem "weddingProjects"
          (stringify (projectsToJs (replaceFirst (fun q => q.id == projectId)
            (updatedProject stamp p taskName isCompleted) pm.projects))) ∈ es
      ∧ ∀ m, Effect.alert m .success ∈ es ↔
          ((updateTask env stamp projectId taskName isCompleted pm).thrown = none
            ∧ (updatedProject stamp p taskName isCompleted).completed = true
            ∧ m = completionMessage (updatedProject stamp p taskName isCompleted)) := by
  obtain ⟨es, h1, h2, h3, h4⟩ := updateTask_tail env
    { pm with projects := (replaceFirst (fun q => q.id == projectId)
        (updatedProject stamp p taskName isCompleted) pm.projects) }
    (updatedProject stamp p taskName isCompleted)
  have hdef : updateTask env stamp projectId taskName isCompleted pm
      = (match (updateProjectUI env (saveProjects { pm with projects :=
            (replaceFirst (fun q => q.id == projectId)
              (updatedProject stamp p taskName isCompleted) pm.projects) })
            (updatedProject stamp p taskName isCompleted)).thrown with
        | some e => (⟨(updateProjectUI env (saveProjects { pm with projects :=
            (replaceFirst (fun q => q.id == projectId)
              (updatedProject stamp p taskName isCompleted) pm.projects) })
            (updatedProject stamp p taskName isCompleted)).state, some e⟩ : Outcome)
        | none =>
          if (updatedProject stamp p taskName isCompleted).completed = true then
            ⟨showNotification (updateChart (updateProjectUI env (saveProjects
              { pm with projects := (replaceFirst (fun q => q.id == projectId)
                (updatedProject stamp p taskName isCompleted) pm.projects) })
              (updatedProject stamp p taskName isCompleted)).state)
              (completionMessage (updatedProject stamp p taskName isCompleted)) .success,
              none⟩
          else ⟨updateChart (updateProjectUI env (saveProjects
              { pm with projects := (replaceFirst (fun q => q.id == projectId)
                (updatedProject stamp p taskName isCompleted) pm.projects) })
              (updatedProject stamp p taskName isCompleted)).state, none⟩) := by
    unfold updateTask
    simp only [hfind]
  rw [hdef]
  refine ⟨es, h1, h3, ?_⟩
  intro m
  rw [h2]
  exact h4 m

/-- With the project found, `updateTask` ends by returning exactly when the project has
no card in the document or every checkbox selector of the changed project is accepted. -/
theorem updateTask_thrown_of_find (env : Env) (stamp projectId taskName : String)
    (isCompleted : Bool) (pm : ProjectManager) (p : Project)
    (hfind : pm.projects.find? (fun q => q.id == projectId) = some p) :
    (updateTask env stamp projectId taskName isCompleted pm).thrown = none
      ↔ (cardPresent pm projectId = true →
          lookupsAccepted env (updatedProject stamp p taskName isCompleted) = true) := by
  have hid : (updatedProject stamp p taskName isCompleted).id = projectId := by
    have := List.find?_some hfind
    simpa [updatedProject] using this
  have hui := updateProjectUI_thrown env (saveProjects { pm with projects :=
      (replaceFirst (fun q => q.id == projectId)
        (updatedProject stamp p taskName isCompleted) pm.projects) })
    (updatedProject stamp p taskName isCompleted)
  have hcards : cardPresent (saveProjects { pm with projects :=
      (replaceFirst (fun q => q.id == projectId)
        (updatedProject stamp p taskName isCompleted) pm.projects) })
      (updatedProject stamp p taskName isCompleted).id = cardPresent pm projectId := by
    unfold cardPresent
    rw [saveProjects_cards, hid]
  rw [hcards] at hui
  rw [← hui]
  unfold updateTask
  simp only [hfind]
  cases hthrown : (updateProjectUI env (saveProjects { pm with projects :=
      (replaceFirst (fun q => q.id == projectId)
        (updatedProject stamp p taskName isCompleted) pm.projects) })
    (updatedProject stamp p taskName isCompleted)).thrown with
  | some e => simp
  | none =>
    simp only
    split <;> simp

/-! ## The claims -/

/-- C1: for a project found under `projectId` whose tasks object has exactly the four task
keys, and a task name among the four, `updateTask` leaves under that id a project with the
assigned task value, the same four keys, `progress` equal to `round(100 * k / 4)`, which is
`25 * k`, and `completed` equal to `k == 4`, for `k` the number of true task values after
the update.  This holds of the state the call leaves however it ends; the call returns
when `querySelector` accepts the selector of each of the project's tasks. -/
theorem updateTask_progress_four (env : Env) (stamp projectId taskName : String)
    (isCompleted : Bool) (pm : ProjectManager) (p : Project)
    (hfind : pm.projects.find? (fun q => q.id == projectId) = some p)
    (hkeys : (p.tasks.map Prod.fst).Perm taskKeys)
    (hkey : taskName ∈ taskKeys) :
    ∃ p', (updateTask env stamp projectId taskName isCompleted pm).state.projects.find?
          (fun q => q.id == projectId) = some p'
      ∧ p'.tasks = setProp p.tasks taskName isCompleted
      ∧ (taskName, isCompleted) ∈ p'.tasks
      ∧ (p'.tasks.map Prod.fst).Perm taskKeys
      ∧ p'.progress = roundHalfUp (100 * (p'.tasks.filter fun kv => kv.2).length) 4
      ∧ p'.progress = 25 * (p'.tasks.filter fun kv => kv.2).length
      ∧ p'.completed = decide ((p'.tasks.filter fun kv => kv.2).length = 4)
      ∧ (lookupsAccepted env p' = true →
          (updateTask env stamp projectId taskName isCompleted pm).thrown = none) := by
  have hmem : taskName ∈ p.tasks.map Prod.fst := hkeys.symm.subset hkey
  have hproto : taskName ≠ "__proto__" := by
    intro h
    rw [h] at hkey
    exact absurd hkey (by decide)
  have hk' := setProp_keys_of_mem p.tasks taskName isCompleted hmem
  have hlen : (setProp p.tasks taskName isCompleted).length = 4 := by
    have h1 := congrArg List.length hk'
    have h2 := hkeys.length_eq
    simp only [List.length_map] at h1 h2
    rw [h1, h2]
    rfl
  have hle := filter_length_le_four _ 4 hlen
  refine ⟨updatedProject stamp p taskName isCompleted,
    updateTask_find _ _ _ _ _ _ _ hfind, rfl, setProp_mem _ _ _ hproto, ?_, ?_, ?_, ?_,
    fun h => (updateTask_thrown_of_find _ _ _ _ _ _ _ hfind).2 fun _ => h⟩
  · show ((setProp p.tasks taskName isCompleted).map Prod.fst).Perm taskKeys
    rw [hk']
    exact hkeys
  · show percent _ (setProp p.tasks taskName isCompleted).length = _
    rw [hlen]
    exact (percent_four _ hle).1
  · show percent _ (setProp p.tasks taskName isCompleted).length = _
    rw [hlen]
    exact (percent_four _ hle).2
  · show decide (_ = (setProp p.tasks taskName isCompleted).length) = _
    rw [hlen]
    rfl

/-- C1, at a store of one new project: marking `cull` done gives progress 25. -/
theorem updateTask_progress_four_witness :
    ∃ p', (updateTask demoEnv "2025-01-02T09:00:00.000Z" "1735689600000" "cull" true
            (demoManager [demoProject "1735689600000" "2025-03-01" false])).state.projects.find?
          (fun q => q.id == "1735689600000") = some p'
      ∧ p'.tasks = setProp (demoProject "1735689600000" "2025-03-01" false).tasks "cull" true
      ∧ ("cull", true) ∈ p'.tasks
      ∧ (p'.tasks.map Prod.fst).Perm taskKeys
      ∧ p'.progress = roundHalfUp (100 * (p'.tasks.filter fun kv => kv.2).length) 4
      ∧ p'.progress = 25 * (p'.tasks.filter fun kv => kv.2).length
      ∧ p'.completed = decide ((p'.tasks.filter fun kv => kv.2).length = 4)
      ∧ (lookupsAccepted demoEnv p' = true →
          (updateTask demoEnv "2025-01-02T09:00:00.000Z" "1735689600000" "cull" true
            (demoManager [demoProject "1735689600000" "2025-03-01" false])).thrown = none) :=
  updateTask_progress_four demoEnv "2025-01-02T09:00:00.000Z" "1735689600000" "cull" true
    (demoManager [demoProject "1735689600000" "2025-03-01" false])
    (demoProject "1735689600000" "2025-03-01" false) (by decide) (List.Perm.refl _) (by decide)

/-- C2, at a store of forty projects of which twenty-three are complete:
`calculateCompletionData` returns 57 per cent, where `round(100 * 23 / 40)` is 58.  The
double `23 / 40` times 100 is just below 57.5. -/
theorem calculateCompletionData_forty :
    calculateCompletionData (demoManager fortyProjects) = ⟨40, 23, 57⟩
      ∧ roundHalfUp (100 * 23) 40 = 58 := by
  decide


set_option maxRecDepth 100000 in
/-- C3 as stated fails: on a project whose four tasks are done and whose `completed` is
already true, setting `cull` to true again makes `updateTask` alert that the project is
now complete. -/
theorem updateTask_alerts_again :
    (demoProject "1735689600000" "2025-03-01" true).completed = true
      ∧ (updateTask demoEnv "2025-01-02T09:00:00.000Z" "1735689600000" "cull" true
          (demoManager [demoProject "1735689600000" "2025-03-01" true])).thrown = none
      ∧ (updateTask demoEnv "2025-01-02T09:00:00.000Z" "1735689600000" "cull" true
          (demoManager [demoProject "1735689600000" "2025-03-01" true])).state.log
        = [.setItem "weddingProjects"
            (stringify (projectsToJs [updatedProject "2025-01-02T09:00:00.000Z"
              (demoProject "1735689600000" "2025-03-01" true) "cull" true])),
           .consoleWarn "Project card for ID 1735689600000 not found in DOM",
           .alert "Project \"Smith Wedding\" is now complete!" .success] := by
  decide

/-- C3 as amended: for a project found under `projectId` and one of the four task names,
where the checkbox lookups of `updateProjectUI` cannot throw (`querySelector` accepts the
selector of the given name and of every task name of the project), `updateTask` returns,
and the calls it adds to the log hold a `success` alert exactly when the project's
`completed` flag is true after the call, and then it is the completion message, whatever
the flag was before; setting a task to false adds none. -/
theorem updateTask_alert_iff_completed (env : Env) (stamp projectId taskName : String)
    (isCompleted : Bool) (pm : ProjectManager) (p : Project)
    (hfind : pm.projects.find? (fun q => q.id == projectId) = some p)
    (hkey : taskName ∈ taskKeys)
    (hsel : ∀ k ∈ taskName :: p.tasks.map Prod.fst,
      env.selectorAccepted (checkboxSelector k p.id) = true) :
    ∃ p' es,
      (updateTask env stamp projectId taskName isCompleted pm).state.projects.find?
          (fun q => q.id == projectId) = some p'
      ∧ (updateTask env stamp projectId taskName isCompleted pm).thrown = none
      ∧ (updateTask env stamp projectId taskName isCompleted pm).state.log = pm.log ++ es
      ∧ (∀ m, Effect.alert m .success ∈ es ↔
          (p'.completed = true ∧ m = completionMessage p'))
      ∧ (isCompleted = false → ∀ m, Effect.alert m .success ∉ es) := by
  obtain ⟨es, hlog, -, hiff⟩ := updateTask_log_of_find env stamp projectId taskName
    isCompleted pm p hfind
  have hproto : taskName ≠ "__proto__" := by
    intro h
    rw [h] at hkey
    exact absurd hkey (by decide)
  have hret : (updateTask env stamp projectId taskName isCompleted pm).thrown = none := by
    rw [updateTask_thrown_of_find env stamp projectId taskName isCompleted pm p hfind]
    intro _
    unfold lookupsAccepted
    rw [List.all_eq_true]
    intro kv hkv
    have hin := setProp_keys_subset p.tasks taskName isCompleted kv.1
      (List.mem_map_of_mem Prod.fst hkv)
    exact hsel kv.1 hin
  have hiff' : ∀ m, Effect.alert m .success ∈ es ↔
      ((updatedProject stamp p taskName isCompleted).completed = true
        ∧ m = completionMessage (updatedProject stamp p taskName isCompleted)) := by
    intro m
    rw [hiff m]
    simp [hret]
  refine ⟨_, es, updateTask_find _ _ _ _ _ _ _ hfind, hret, hlog, hiff', ?_⟩
  intro hfalse m hm
  have hc := ((hiff' m).1 hm).1
  have hlt := filter_length_lt_of_false (setProp p.tasks taskName isCompleted) taskName
    (hfalse ▸ setProp_mem p.tasks taskName isCompleted hproto)
  have : (updatedProject stamp p taskName isCompleted).completed
      = decide ((List.filter (fun kv => kv.2)
          (setProp p.tasks taskName isCompleted)).length
          = (setProp p.tasks taskName isCompleted).length) := rfl
  rw [this, decide_eq_true_eq] at hc
  omega

/-- C3 as amended, at a complete project, shown by its card, whose `cull` is set
again. -/
theorem updateTask_alert_iff_completed_witness :
    ∃ p' es,
      (updateTask demoEnv "2025-01-02T09:00:00.000Z" "1735689600000" "cull" true
          (renderedManager [demoProject "1735689600000" "2025-03-01" true])).state.projects.find?
          (fun q => q.id == "1735689600000") = some p'
      ∧ (updateTask demoEnv "2025-01-02T09:00:00.000Z" "1735689600000" "cull" true
          (renderedManager [demoProject "1735689600000" "2025-03-01" true])).thrown = none
      ∧ (updateTask demoEnv "2025-01-02T09:00:00.000Z" "1735689600000" "cull" true
          (renderedManager [demoProject "1735689600000" "2025-03-01" true])).state.log
          = (renderedManager [demoProject "1735689600000" "2025-03-01" true]).log ++ es
      ∧ (∀ m, Effect.alert m .success ∈ es ↔
          (p'.completed = true ∧ m = completionMessage p'))
      ∧ (true = false → ∀ m, Effect.alert m .success ∉ es) :=
  updateTask_alert_iff_completed demoEnv "2025-01-02T09:00:00.000Z" "1735689600000" "cull"
    true (renderedManager [demoProject "1735689600000" "2025-03-01" true])
    (demoProject "1735689600000" "2025-03-01" true) (by decide) (by decide) (by decide)

set_option maxRecDepth 100000 in
/-- C4 as stated fails: on a new project, `updateTask` with the task name `extras` is not
rejected; the tasks object gets a fifth key and `progress` changes from 0 to 20. -/
theorem updateTask_adds_fifth_key :
    (updateTask demoEnv "2025-01-02T09:00:00.000Z" "1735689600000" "extras" true
        (demoManager [demoProject "1735689600000" "2025-03-01" false])).state.projects
      = [{ demoProject "1735689600000" "2025-03-01" false with
            tasks := [("cull", false), ("speeches", false), ("featureFilm", false),
                      ("shortFilm", false), ("extras", true)]
            progress := 20
            lastModified := some "2025-01-02T09:00:00.000Z" }]
      ∧ (demoProject "1735689600000" "2025-03-01" false).progress = 0 := by
  decide

/-- C4 as amended: for a project found under `projectId` whose tasks object has exactly
the four task keys, and a task name that is none of the four and not `__proto__`,
`updateTask` does not reject the call: the tasks object gets the name as a fifth key with
the given value, the four keeping their values and their order; `progress` becomes
`round(100 * k / 5)`, which is `20 * k`, and `completed` becomes `k == 5`, for `k` the
number of true values among the five; `lastModified` is set.  This holds of the state the
call leaves however it ends; the call returns when `querySelector` accepts the selector
of each of the five tasks. -/
theorem updateTask_unknown_key (env : Env) (stamp projectId taskName : String)
    (isCompleted : Bool) (pm : ProjectManager) (p : Project)
    (hfind : pm.projects.find? (fun q => q.id == projectId) = some p)
    (hkeys : (p.tasks.map Prod.fst).Perm taskKeys)
    (hkey : taskName ∉ taskKeys)
    (hproto : taskName ≠ "__proto__") :
    ∃ p', (updateTask env stamp projectId taskName isCompleted pm).state.projects.find?
          (fun q => q.id == projectId) = some p'
      ∧ (p'.tasks.map Prod.fst).Perm (taskName :: taskKeys)
      ∧ (taskName, isCompleted) ∈ p'.tasks
      ∧ p'.tasks.filter (fun kv => !(kv.1 == taskName)) = p.tasks
      ∧ p'.progress = roundHalfUp (100 * (p'.tasks.filter fun kv => kv.2).length) 5
      ∧ p'.progress = 20 * (p'.tasks.filter fun kv => kv.2).length
      ∧ p'.completed = decide ((p'.tasks.filter fun kv => kv.2).length = 5)
      ∧ p'.lastModified = some stamp
      ∧ (lookupsAccepted env p' = true →
          (updateTask env stamp projectId taskName isCompleted pm).thrown = none) := by
  have hmem : taskName ∉ p.tasks.map Prod.fst := fun h => hkey (hkeys.subset h)
  have hset := setProp_of_not_mem p.tasks taskName isCompleted hmem hproto
  obtain ⟨hperm, hfilter⟩ := defineProp_new p.tasks taskName isCompleted hmem
  rw [← hset] at hperm hfilter
  have hlen : (setProp p.tasks taskName isCompleted).length = 5 := by
    have h2 := hkeys.length_eq
    simp only [List.length_map] at h2
    rw [hperm.length_eq, List.length_cons, h2]
    rfl
  have hle := filter_length_le_four _ 5 hlen
  refine ⟨updatedProject stamp p taskName isCompleted,
    updateTask_find _ _ _ _ _ _ _ hfind, ?_, ?_, hfilter, ?_, ?_, ?_, rfl,
    fun h => (updateTask_thrown_of_find _ _ _ _ _ _ _ hfind).2 fun _ => h⟩
  · show ((setProp p.tasks taskName isCompleted).map Prod.fst).Perm (taskName :: taskKeys)
    exact (hperm.map Prod.fst).trans (List.Perm.cons taskName hkeys)
  · exact hperm.symm.subset (List.mem_cons_self _ _)
  · show percent _ (setProp p.tasks taskName isCompleted).length = _
    rw [hlen]
    exact (percent_five _ hle).1
  · show percent _ (setProp p.tasks taskName isCompleted).length = _
    rw [hlen]
    exact (percent_five _ hle).2
  · show decide (_ = (setProp p.tasks taskName isCompleted).length) = _
    rw [hlen]
    rfl

/-- C4 as amended, at a new project and the task name `extras`. -/
theorem updateTask_unknown_key_witness :
    ∃ p', (updateTask demoEnv "2025-01-02T09:00:00.000Z" "1735689600000" "extras" true
          (demoManager [demoProject "1735689600000" "2025-03-01" false])).state.projects.find?
          (fun q => q.id == "1735689600000") = some p'
      ∧ (p'.tasks.map Prod.fst).Perm ("extras" :: taskKeys)
      ∧ ("extras", true) ∈ p'.tasks
      ∧ p'.tasks.filter (fun kv => !(kv.1 == "extras"))
          = (demoProject "1735689600000" "2025-03-01" false).tasks
      ∧ p'.progress = roundHalfUp (100 * (p'.tasks.filter fun kv => kv.2).length) 5
      ∧ p'.progress = 20 * (p'.tasks.filter fun kv => kv.2).length
      ∧ p'.completed = decide ((p'.tasks.filter fun kv => kv.2).length = 5)
      ∧ p'.lastModified = some "2025-01-02T09:00:00.000Z"
      ∧ (lookupsAccepted demoEnv p' = true →
          (updateTask demoEnv "2025-01-02T09:00:00.000Z" "1735689600000" "extras" true
            (demoManager [demoProject "1735689600000" "2025-03-01" false])).thrown = none) :=
  updateTask_unknown_key demoEnv "2025-01-02T09:00:00.000Z" "1735689600000" "extras" true
    (demoManager [demoProject "1735689600000" "2025-03-01" false])
    (demoProject "1735689600000" "2025-03-01" false) (by decide) (List.Perm.refl _)
    (by decide) (by decide)


theorem saveProjects_storage_of_ok (pm : ProjectManager) (s : Storage)
    (h : pm.storage.setItem (stringify (projectsToJs pm.projects)) = .ok s) :
    (saveProjects pm).storage = s := by
  unfold saveProjects
  simp only [emit_storage, h]



/-- C6: with an empty name or an empty date, `addProject` leaves the collection and the
storage as they were, and the only call it makes is the alert that name and date are
required: `saveProjects` is not called and `localStorage.setItem` is not reached. -/
theorem addProject_rejects_empty (env : Env) (now : Nat) (stamp : String) (d : ProjectData)
    (pm : ProjectManager) (h : d.name = "" ∨ d.date = "") :
    (addProject env now stamp d pm).projects = pm.projects
      ∧ (addProject env now stamp d pm).storage = pm.storage
      ∧ (addProject env now stamp d pm).log
          = pm.log ++ [.alert "Project name and date are required" .error]
      ∧ addProject env now stamp d pm
          = showNotification pm "Project name and date are required" .error := by
  unfold addProject
  simp [h]

/-- C6, at an empty name (scenario E of the specification). -/
theorem addProject_rejects_empty_witness :
    (addProject demoEnv 1735689600000 "2025-01-01T10:00:00.000Z"
        ⟨"", "2025-01-01"⟩ (demoManager [])).projects = (demoManager []).projects
      ∧ (addProject demoEnv 1735689600000 "2025-01-01T10:00:00.000Z"
        ⟨"", "2025-01-01"⟩ (demoManager [])).storage = (demoManager []).storage
      ∧ (addProject demoEnv 1735689600000 "2025-01-01T10:00:00.000Z"
        ⟨"", "2025-01-01"⟩ (demoManager [])).log
          = (demoManager []).log ++ [.alert "Project name and date are required" .error]
      ∧ addProject demoEnv 1735689600000 "2025-01-01T10:00:00.000Z"
          ⟨"", "2025-01-01"⟩ (demoManager [])
          = showNotification (demoManager []) "Project name and date are required" .error :=
  addProject_rejects_empty demoEnv 1735689600000 "2025-01-01T10:00:00.000Z"
    ⟨"", "2025-01-01"⟩ (demoManager []) (Or.inl rfl)


/-- C7: for an id no project of the store has, `updateTask` returns and leaves every field
of the manager and of the browser as it was, the projects with their tasks, `progress`,
`completed` and `lastModified` included; the only call it makes is a `console.error`: no
storage write and no alert. -/
theorem updateTask_unknown_id (env : Env) (stamp projectId taskName : String)
    (isCompleted : Bool) (pm : ProjectManager) (h : ∀ p ∈ pm.projects, p.id ≠ projectId) :
    (updateTask env stamp projectId taskName isCompleted pm).state.projects = pm.projects
      ∧ (updateTask env stamp projectId taskName isCompleted pm).state.storage = pm.storage
      ∧ (updateTask env stamp projectId taskName isCompleted pm).state.log
          = pm.log ++ [.consoleError ("Project with ID " ++ projectId ++ " not found")]
      ∧ updateTask env stamp projectId taskName isCompleted pm
          = ⟨pm.emit (.consoleError ("Project with ID " ++ projectId ++ " not found")),
              none⟩ := by
  have hnone : pm.projects.find? (fun p => p.id == projectId) = none := by
    rw [List.find?_eq_none]
    intro p hp
    simpa using h p hp
  unfold updateTask
  simp [hnone]

/-- C7, at the id `unknown-id` (scenario D of the specification). -/
theorem updateTask_unknown_id_witness :
    (updateTask demoEnv "2025-01-02T09:00:00.000Z" "unknown-id" "cull" true
        (demoManager [demoProject "1735689600000" "2025-03-01" false])).state.projects
        = (demoManager [demoProject "1735689600000" "2025-03-01" false]).projects
      ∧ (updateTask demoEnv "2025-01-02T09:00:00.000Z" "unknown-id" "cull" true
        (demoManager [demoProject "1735689600000" "2025-03-01" false])).state.storage
        = (demoManager [demoProject "1735689600000" "2025-03-01" false]).storage
      ∧ (updateTask demoEnv "2025-01-02T09:00:00.000Z" "unknown-id" "cull" true
        (demoManager [demoProject "1735689600000" "2025-03-01" false])).state.log
          = (demoManager [demoProject "1735689600000" "2025-03-01" false]).log
            ++ [.consoleError ("Project with ID " ++ "unknown-id" ++ " not found")]
      ∧ updateTask demoEnv "2025-01-02T09:00:00.000Z" "unknown-id" "cull" true
          (demoManager [demoProject "1735689600000" "2025-03-01" false])
          = ⟨(demoManager [demoProject "1735689600000" "2025-03-01" false]).emit
              (.consoleError ("Project with ID " ++ "unknown-id" ++ " not found")), none⟩ :=
  updateTask_unknown_id demoEnv "2025-01-02T09:00:00.000Z" "unknown-id" "cull" true
    (demoManager [demoProject "1735689600000" "2025-03-01" false]) (by decide)

/-! ## Sorting -/

theorem sortInsert_perm {α : Type} (cmp : α → α → Option Int) (a : α) (l : List α) :
    (sortInsert cmp a l).Perm (a :: l) := by
  induction l with
  | nil => exact List.Perm.refl _
  | cons b l ih =>
    unfold sortInsert
    split
    · exact List.Perm.refl _
    · exact (List.Perm.cons b ih).trans (List.Perm.swap a b l)

theorem jsSort_perm {α : Type} (cmp : α → α → Option Int) (l : List α) :
    (jsSort cmp l).Perm l := by
  induction l with
  | nil => exact List.Perm.refl _
  | cons a l ih =>
    exact (sortInsert_perm cmp a (jsSort cmp l)).trans (List.Perm.cons a ih)

theorem sortInsert_pairwise {α : Type} (cmp : α → α → Option Int) (key : α → Int) (a : α)
    (l : List α) (hcmp : ∀ b ∈ l, keepsBefore cmp a b = decide (key a ≤ key b))
    (hl : l.Pairwise fun x y => key x ≤ key y) :
    (sortInsert cmp a l).Pairwise fun x y => key x ≤ key y := by
  induction l with
  | nil => simp [sortInsert]
  | cons b l ih =>
    rw [List.pairwise_cons] at hl
    unfold sortInsert
    by_cases hab : key a ≤ key b
    · rw [hcmp b (List.mem_cons_self b l)]
      simp only [hab, decide_True, if_true]
      refine List.Pairwise.cons ?_ (List.Pairwise.cons hl.1 hl.2)
      intro x hx
      rcases List.mem_cons.1 hx with hx | hx
      · rw [hx]
        exact hab
      · exact le_trans hab (hl.1 x hx)
    · rw [hcmp b (List.mem_cons_self b l)]
      simp only [hab, decide_False, Bool.false_eq_true, if_false]
      refine List.Pairwise.cons ?_ (ih (fun c hc => hcmp c (List.mem_cons_of_mem b hc)) hl.2)
      intro x hx
      rcases List.mem_cons.1 ((sortInsert_perm cmp a l).subset hx) with hx | hx
      · rw [hx]
        omega
      · exact hl.1 x hx

theorem jsSort_pairwise {α : Type} (cmp : α → α → Option Int) (key : α → Int) (l : List α)
    (hcmp : ∀ a ∈ l, ∀ b ∈ l, keepsBefore cmp a b = decide (key a ≤ key b)) :
    (jsSort cmp l).Pairwise fun x y => key x ≤ key y := by
  induction l with
  | nil => simp [jsSort]
  | cons a l ih =>
    unfold jsSort
    apply sortInsert_pairwise
    · intro b hb
      exact hcmp a (List.mem_cons_self a l) b
        (List.mem_cons_of_mem a ((jsSort_perm cmp l).subset hb))
    · exact ih fun x hx y hy =>
        hcmp x (List.mem_cons_of_mem a hx) y (List.mem_cons_of_mem a hy)

theorem sortedProjects_ascending (env : Env) (ps : List Project)
    (hvalid : ∀ p ∈ ps, (env.timeValue p.date).isSome = true) :
    DateAscending env (sortedProjects env ps) := by
  have hkey : ∀ a ∈ ps, ∀ b ∈ ps, keepsBefore (compareDates env) a b
      = decide ((env.timeValue a.date).getD 0 ≤ (env.timeValue b.date).getD 0) := by
    intro a ha b hb
    obtain ⟨x, hx⟩ := Option.isSome_iff_exists.1 (hvalid a ha)
    obtain ⟨y, hy⟩ := Option.isSome_iff_exists.1 (hvalid b hb)
    simp [keepsBefore, compareDates, hx, hy]
  have hsorted := jsSort_pairwise (compareDates env)
    (fun p => (env.timeValue p.date).getD 0) ps hkey
  have hmem : ∀ p ∈ sortedProjects env ps, p ∈ ps :=
    fun p hp => (jsSort_perm (compareDates env) ps).subset hp
  unfold DateAscending
  refine List.Pairwise.imp_of_mem ?_ hsorted
  intro a b ha hb hab
  obtain ⟨x, hx⟩ := Option.isSome_iff_exists.1 (hvalid a (hmem a ha))
  obtain ⟨y, hy⟩ := Option.isSome_iff_exists.1 (hvalid b (hmem b hb))
  simp only [hx, hy, Option.getD_some] at hab
  simp [datesAscend, hx, hy, hab]

/-- C8 as stated fails: for the projects of 1 March, of no date and of 1 January, in that
insertion order, `renderProjects` presents them in that same order, the March wedding
before the January one. -/
theorem renderProjects_unsorted :
    (renderProjects demoEnv (demoManager mixedDates)).cards = some mixedDates
      ∧ ¬ DateAscending demoEnv mixedDates := by
  decide

/-- C8 as amended: in a page that has the container, for a store in which every
project's date is a valid date, `renderProjects` presents a permutation of the stored
collection that is ordered by date ascending, and leaves the stored collection as it
was. -/
theorem renderProjects_sorted (env : Env) (pm : ProjectManager) (cs : List Project)
    (hcards : pm.cards = some cs)
    (hvalid : ∀ p ∈ pm.projects, (env.timeValue p.date).isSome = true) :
    ∃ l, (renderProjects env pm).cards = some l
      ∧ l.Perm pm.projects
      ∧ DateAscending env l
      ∧ (renderProjects env pm).projects = pm.projects := by
  refine ⟨sortedProjects env pm.projects, ?_, jsSort_perm _ _,
    sortedProjects_ascending env pm.projects hvalid, renderProjects_projects env pm⟩
  unfold renderProjects
  simp only [hcards]
  split
  · next h =>
    have : pm.projects = [] := List.length_eq_zero.1 h
    simp [this, sortedProjects, jsSort]
  · rfl

/-- C8 as amended, at a store holding the March wedding before the January one. -/
theorem renderProjects_sorted_witness :
    ∃ l, (renderProjects demoEnv (demoManager
          [demoProject "1735689600000" "2025-03-01" false,
           demoProject "1735689600002" "2025-01-01" false])).cards = some l
      ∧ l.Perm (demoManager
          [demoProject "1735689600000" "2025-03-01" false,
           demoProject "1735689600002" "2025-01-01" false]).projects
      ∧ DateAscending demoEnv l
      ∧ (renderProjects demoEnv (demoManager
          [demoProject "1735689600000" "2025-03-01" false,
           demoProject "1735689600002" "2025-01-01" false])).projects
        = (demoManager
          [demoProject "1735689600000" "2025-03-01" false,
           demoProject "1735689600002" "2025-01-01" false]).projects :=
  renderProjects_sorted demoEnv (demoManager
      [demoProject "1735689600000" "2025-03-01" false,
       demoProject "1735689600002" "2025-01-01" false]) [] rfl (by decide)


/-! ## Decimal numerals are read back -/

theorem digitChar_toNat (d : Nat) (h : d < 10) : (digitChar d).toNat = 48 + d := by
  interval_cases d <;> rfl

theorem hexValue_digitChar (d : Nat) (h : d < 16) : hexValue (digitChar d) = some d := by
  interval_cases d <;> rfl

theorem isDigit_digitChar (d : Nat) (h : d < 10) : isDigit (digitChar d) = true := by
  simp [isDigit, digitChar_toNat d h]
  omega

theorem digitsValue_append (ds : List Char) (c : Char) :
    digitsValue (ds ++ [c]) = digitsValue ds * 10 + (c.toNat - 48) := by
  simp [digitsValue, List.foldl_append]

/-- What `natDigitsAux` puts in front of the accumulator: digits that write `n`, with no
leading zero unless `n` is zero. -/
theorem natDigitsAux_spec (fuel : Nat) : ∀ (n : Nat) (acc : List Char), n < fuel →
    ∃ ds, natDigitsAux fuel n acc = ds ++ acc ∧ ds ≠ []
      ∧ (∀ c ∈ ds, isDigit c = true) ∧ digitsValue ds = n
      ∧ (ds.head? = some '0' → ds = ['0']) := by
  induction fuel with
  | zero => intro n acc h; omega
  | succ fuel ih =>
    intro n acc hn
    unfold natDigitsAux
    by_cases h10 : n < 10
    · refine ⟨[digitChar n], by simp [h10], by simp, ?_, ?_, ?_⟩
      · intro c hc
        rw [List.mem_singleton.1 hc]
        exact isDigit_digitChar n h10
      · simp [digitsValue, digitChar_toNat n h10]
      · intro hh
        simpa using hh
    · have hlt : n / 10 < fuel := by omega
      obtain ⟨ds, h1, h2, h3, h4, h5⟩ := ih (n / 10) (digitChar (n % 10) :: acc) hlt
      have hmod : n % 10 < 10 := Nat.mod_lt _ (by omega)
      refine ⟨ds ++ [digitChar (n % 10)], by simp [h10, h1], by simp, ?_, ?_, ?_⟩
      · intro c hc
        rcases List.mem_append.1 hc with hc | hc
        · exact h3 c hc
        · rw [List.mem_singleton.1 hc]
          exact isDigit_digitChar _ hmod
      · rw [digitsValue_append, h4, digitChar_toNat _ hmod]
        omega
      · intro hhead
        exfalso
        cases ds with
        | nil => exact h2 rfl
        | cons d ds' =>
          have hd0 : (d :: ds').head? = some '0' := by simpa using hhead
          have := h5 hd0
          rw [this] at h4
          simp [digitsValue] at h4
          omega

theorem natDigits_spec (n : Nat) :
    natDigits n ≠ [] ∧ (∀ c ∈ natDigits n, isDigit c = true)
      ∧ digitsValue (natDigits n) = n
      ∧ ((natDigits n).head? = some '0' → natDigits n = ['0']) := by
  obtain ⟨ds, h1, h2, h3, h4, h5⟩ := natDigitsAux_spec (n + 1) n [] (Nat.lt_succ_self n)
  have : natDigits n = ds := by simpa [natDigits] using h1
  rw [this]
  exact ⟨h2, h3, h4, h5⟩

theorem spanDigits_append (ds rest : List Char) (hds : ∀ c ∈ ds, isDigit c = true)
    (hrest : ∀ c r, rest = c :: r → isDigit c = false) :
    spanDigits (ds ++ rest) = (ds, rest) := by
  induction ds with
  | nil =>
    cases rest with
    | nil => rfl
    | cons c r => simp [spanDigits, hrest c r rfl]
  | cons d ds ih =>
    have hd := hds d (List.mem_cons_self d ds)
    have := ih fun c hc => hds c (List.mem_cons_of_mem d hc)
    simp [spanDigits, hd, this]

theorem Delimited.not_digit {rest : List Char} (h : Delimited rest) :
    ∀ c r, rest = c :: r → isDigit c = false := by
  intro c r hr
  rcases h c r hr with hc | hc | hc <;> rw [hc] <;> rfl

theorem readFraction_delimited {rest : List Char} (h : Delimited rest) :
    readFraction rest = some ([], rest) := by
  cases rest with
  | nil => rfl
  | cons c r =>
    rcases h c r rfl with hc | hc | hc <;> rw [hc] <;> rfl

theorem readExponent_delimited {rest : List Char} (h : Delimited rest) :
    readExponent rest = some ([], rest) := by
  cases rest with
  | nil => rfl
  | cons c r =>
    rcases h c r rfl with hc | hc | hc <;> rw [hc] <;> rfl

theorem readNumber_natDigits (n : Nat) (rest : List Char) (h : Delimited rest) :
    readNumber (natDigits n ++ rest) = some (.num n, rest) := by
  obtain ⟨h1, h2, h3, h4⟩ := natDigits_spec n
  have hspan := spanDigits_append (natDigits n) rest h2 h.not_digit
  cases hnd : natDigits n with
  | nil => exact absurd hnd h1
  | cons d ds =>
    rw [hnd] at hspan h2 h3 h4
    have hdig : isDigit d = true := h2 d (List.mem_cons_self d ds)
    have hminus : d ≠ '-' := by
      intro hd
      rw [hd] at hdig
      exact absurd hdig (by decide)
    have hzero : ¬ (d = '0' ∧ ds ≠ []) := by
      rintro ⟨hd, hne⟩
      have := h4 (by simp [hd])
      simp at this
      exact hne this.2
    unfold readNumber
    have hsign : (match d :: ds ++ rest with
        | '-' :: r => (['-'], r)
        | _ => (([] : List Char), d :: ds ++ rest)) = ([], d :: ds ++ rest) := by
      split
      · next r heq =>
        simp only [List.cons_append, List.cons.injEq] at heq
        exact absurd heq.1 hminus
      · rfl
    simp only [hsign, hspan, hzero, if_false, readFraction_delimited h,
      readExponent_delimited h, and_self, if_true, h3]


/-! ## Strings are read back -/

theorem readStringChar_quoteChar (c : Char) (rest : List Char) :
    readStringChar (quoteChar c ++ rest) = some (c, rest) := by
  unfold quoteChar
  by_cases h1 : c = '"'
  · subst h1; rfl
  by_cases h2 : c = '\\'
  · subst h2; rfl
  by_cases h3 : c = '\x08'
  · subst h3; rfl
  by_cases h4 : c = '\x0c'
  · subst h4; rfl
  by_cases h5 : c = '\n'
  · subst h5; rfl
  by_cases h6 : c = '\r'
  · subst h6; rfl
  by_cases h7 : c = '\t'
  · subst h7; rfl
  by_cases h8 : c.toNat < 32
  · simp only [h1, h2, h3, h4, h5, h6, h7, h8, if_false, if_true, List.cons_append,
      List.nil_append]
    have hhi : hexValue (digitChar (c.toNat / 16)) = some (c.toNat / 16) :=
      hexValue_digitChar _ (by omega)
    have hlo : hexValue (digitChar (c.toNat % 16)) = some (c.toNat % 16) :=
      hexValue_digitChar _ (Nat.mod_lt _ (by omega))
    have h0 : hexValue '0' = some 0 := rfl
    have hhex : hex4 '0' '0' (digitChar (c.toNat / 16)) (digitChar (c.toNat % 16))
        = some c.toNat := by
      simp only [hex4, h0, hhi, hlo]
      congr 1
      omega
    have hn1 : ¬ (55296 ≤ c.toNat ∧ c.toNat < 56320) := by omega
    have hn2 : ¬ (56320 ≤ c.toNat ∧ c.toNat < 57344) := by omega
    simp [readStringChar, hhex, hn1, hn2, Char.ofNat_toNat]
  · simp [h1, h2, h3, h4, h5, h6, h7, h8, readStringChar]

theorem quoteChar_head (c : Char) (rest : List Char) :
    ∃ x r, quoteChar c ++ rest = x :: r ∧ x ≠ '"' := by
  unfold quoteChar
  by_cases h1 : c = '"'
  · exact ⟨'\\', '"' :: rest, by simp [h1], by decide⟩
  · split_ifs <;> first
      | exact ⟨'\\', _, rfl, by decide⟩
      | exact ⟨c, _, rfl, h1⟩

theorem quoteChar_length_pos (c : Char) : 0 < (quoteChar c).length := by
  unfold quoteChar
  split_ifs <;> simp

theorem readString_quoteChars (s : List Char) : ∀ (fuel : Nat) (rest : List Char),
    (quoteChars s).length + 1 ≤ fuel →
    readString fuel (quoteChars s ++ '"' :: rest) = some (s, rest) := by
  induction s with
  | nil =>
    intro fuel rest hf
    cases fuel with
    | zero => omega
    | succ fuel => simp [quoteChars, readString]
  | cons c s ih =>
    intro fuel rest hf
    cases fuel with
    | zero => omega
    | succ fuel =>
      have hpos := quoteChar_length_pos c
      have hlen : (quoteChars s).length + 1 ≤ fuel := by
        simp only [quoteChars, List.length_append] at hf
        omega
      obtain ⟨x, r, hx, hne⟩ := quoteChar_head c (quoteChars s ++ '"' :: rest)
      have hchar := readStringChar_quoteChar c (quoteChars s ++ '"' :: rest)
      rw [hx] at hchar
      simp only [quoteChars, List.append_assoc, hx, readString, hne, if_false, hchar,
        ih fuel rest hlen]

theorem readString_quote (s rest : List Char) :
    ∃ r, quote s ++ rest = '"' :: r ∧ readString (r.length + 1) r = some (s, rest) := by
  refine ⟨quoteChars s ++ '"' :: rest, by simp [quote], ?_⟩
  apply readString_quoteChars
  simp


/-! ## `JSON.parse` reads back what `JSON.stringify` writes -/

theorem skipWs_of_not_ws (c : Char) (r : List Char) (h : isWs c = false) :
    skipWs (c :: r) = c :: r := by
  simp [skipWs, h]

theorem isDigit_head_facts (d : Char) (h : isDigit d = true) :
    isWs d = false ∧ d ≠ '"' ∧ d ≠ '[' ∧ d ≠ '\x7b' ∧ d ≠ 't' ∧ d ≠ 'f' ∧ d ≠ 'n'
      ∧ d ≠ ']' ∧ d ≠ '\x7d' := by
  refine ⟨?_, ?_, ?_, ?_, ?_, ?_, ?_, ?_, ?_⟩
  · by_contra hws
    simp only [isWs, Bool.not_eq_false, decide_eq_true_eq] at hws
    rcases hws with hc | hc | hc | hc <;> rw [hc] at h <;> exact absurd h (by decide)
  all_goals
    intro hc
    rw [hc] at h
    exact absurd h (by decide)

/-- The first character of what a plain value is written as: not white space and not a
closing bracket or brace. -/
theorem render_head (v : JsVal) (hp : v.plain = true) (rest : List Char) :
    ∃ c r, render v ++ rest = c :: r ∧ isWs c = false ∧ c ≠ ']' ∧ c ≠ '\x7d' := by
  cases v with
  | null => exact ⟨'n', _, rfl, by decide, by decide, by decide⟩
  | bool b =>
    cases b
    · exact ⟨'f', _, rfl, by decide, by decide, by decide⟩
    · exact ⟨'t', _, rfl, by decide, by decide, by decide⟩
  | num n =>
    obtain ⟨h1, h2, -, -⟩ := natDigits_spec n
    cases hnd : natDigits n with
    | nil => exact absurd hnd h1
    | cons d ds =>
      have hd := isDigit_head_facts d (h2 d (by rw [hnd]; exact List.mem_cons_self d ds))
      exact ⟨d, ds ++ rest, by simp [render, hnd], hd.1, hd.2.2.2.2.2.2.2.1, hd.2.2.2.2.2.2.2.2⟩
  | numOther raw => simp [JsVal.plain] at hp
  | str s => exact ⟨'"', quoteChars s ++ '"' :: rest, by simp [render, quote], by decide, by decide, by decide⟩
  | arr items =>
    cases items with
    | nil => exact ⟨'[', _, rfl, by decide, by decide, by decide⟩
    | cons v vs => exact ⟨'[', render v ++ (renderItems vs ++ rest), by simp [render], by decide, by decide, by decide⟩
  | obj fields =>
    cases fields with
    | nil => exact ⟨'\x7b', _, rfl, by decide, by decide, by decide⟩
    | cons f fs =>
      obtain ⟨k, v⟩ := f
      exact ⟨'\x7b', quote k ++ ':' :: (render v ++ (renderFields fs ++ rest)),
        by simp [render], by decide, by decide, by decide⟩

theorem renderItems_delimited (vs : List JsVal) (rest : List Char) :
    Delimited (renderItems vs ++ rest) := by
  intro c r h
  cases vs with
  | nil =>
    simp only [renderItems, List.cons_append, List.nil_append, List.cons.injEq] at h
    exact Or.inr (Or.inl h.1.symm)
  | cons v vs =>
    simp only [renderItems, List.cons_append, List.cons.injEq] at h
    exact Or.inl h.1.symm

theorem renderFields_delimited (fs : List (List Char × JsVal)) (rest : List Char) :
    Delimited (renderFields fs ++ rest) := by
  intro c r h
  cases fs with
  | nil =>
    simp only [renderFields, List.cons_append, List.nil_append, List.cons.injEq] at h
    exact Or.inr (Or.inr h.1.symm)
  | cons f fs =>
    obtain ⟨k, v⟩ := f
    simp only [renderFields, List.cons_append, List.cons.injEq] at h
    exact Or.inl h.1.symm

theorem parseValue_num (n fuel : Nat) (rest : List Char) (hd : Delimited rest) :
    parseValue (fuel + 1) (natDigits n ++ rest) = some (.num n, rest) := by
  obtain ⟨h1, h2, -, -⟩ := natDigits_spec n
  have hnum := readNumber_natDigits n rest hd
  cases hnd : natDigits n with
  | nil => exact absurd hnd h1
  | cons d ds =>
    rw [hnd] at hnum
    obtain ⟨f1, f2, f3, f4, f5, f6, f7, -, -⟩ :=
      isDigit_head_facts d (h2 d (by rw [hnd]; exact List.mem_cons_self d ds))
    simp only [List.cons_append] at hnum ⊢
    simp only [parseValue, skipWs_of_not_ws d _ f1, f2, f3, f4, f5, f6, f7, if_false, hnum]

theorem parseValue_str (s : List Char) (fuel : Nat) (rest : List Char) :
    parseValue (fuel + 1) (quote s ++ rest) = some (.str s, rest) := by
  obtain ⟨r, hr, hread⟩ := readString_quote s rest
  rw [hr]
  have hws : isWs '"' = false := by decide
  simp only [parseValue, skipWs_of_not_ws _ _ hws, if_true, hread]


theorem quote_head (k rest : List Char) :
    quote k ++ rest = '"' :: (quoteChars k ++ '"' :: rest) := by
  simp [quote]

theorem render_length_pos (v : JsVal) (hp : v.plain = true) : 0 < (render v).length := by
  obtain ⟨c, r, hc, -⟩ := render_head v hp []
  have := congrArg List.length hc
  simp only [List.append_nil, List.length_cons] at this
  omega

theorem parseValue_arr_cons (v : JsVal) (vs : List JsVal) (fuel : Nat) (rest : List Char)
    (hp : v.plain = true)
    (hitems : parseItems fuel (render v ++ (renderItems vs ++ rest)) = some (v :: vs, rest)) :
    parseValue (fuel + 1) (render (.arr (v :: vs)) ++ rest) = some (.arr (v :: vs), rest) := by
  obtain ⟨c, r, hc, hws, hb, -⟩ := render_head v hp (renderItems vs ++ rest)
  have hopen : isWs '[' = false := by decide
  have hne1 : ¬ '[' = '"' := by decide
  simp only [render, List.cons_append, List.append_assoc, parseValue,
    skipWs_of_not_ws _ _ hopen, hne1, if_false, if_true, hitems]
  rw [hc, skipWs_of_not_ws c r hws]
  split
  · next r1 heq =>
    simp only [List.cons.injEq] at heq
    exact absurd heq.1 hb
  · rfl

theorem parseValue_obj_cons (k : List Char) (v : JsVal) (fs : List (List Char × JsVal))
    (fuel : Nat) (rest : List Char)
    (hfields : parseFields fuel (quote k ++ ':' :: (render v ++ (renderFields fs ++ rest)))
      = some ((k, v) :: fs, rest)) :
    parseValue (fuel + 1) (render (.obj ((k, v) :: fs)) ++ rest)
      = some (.obj ((k, v) :: fs), rest) := by
  have hopen : isWs '\x7b' = false := by decide
  have hquote : isWs '"' = false := by decide
  have hne1 : ¬ '\x7b' = '"' := by decide
  have hne2 : ¬ '\x7b' = '[' := by decide
  simp only [render, List.cons_append, List.append_assoc, parseValue,
    skipWs_of_not_ws _ _ hopen, hne1, hne2, if_false, if_true, hfields]
  rw [quote_head, skipWs_of_not_ws _ _ hquote]
  split
  · next r1 heq =>
    simp only [List.cons.injEq] at heq
    exact absurd heq.1 (by decide)
  · rfl

theorem parseItems_last (v : JsVal) (fuel : Nat) (rest : List Char)
    (hv : parseValue fuel (render v ++ (renderItems [] ++ rest))
      = some (v, renderItems [] ++ rest)) :
    parseItems (fuel + 1) (render v ++ (renderItems [] ++ rest)) = some ([v], rest) := by
  have hclose : isWs ']' = false := by decide
  simp only [parseItems, hv]
  simp only [renderItems, List.cons_append, List.nil_append, skipWs_of_not_ws _ _ hclose]

theorem parseItems_more (v v1 : JsVal) (vs1 : List JsVal) (fuel : Nat) (rest : List Char)
    (hv : parseValue fuel (render v ++ (renderItems (v1 :: vs1) ++ rest))
      = some (v, renderItems (v1 :: vs1) ++ rest))
    (hrec : parseItems fuel (render v1 ++ (renderItems vs1 ++ rest)) = some (v1 :: vs1, rest)) :
    parseItems (fuel + 1) (render v ++ (renderItems (v1 :: vs1) ++ rest))
      = some (v :: v1 :: vs1, rest) := by
  have hcomma : isWs ',' = false := by decide
  simp only [parseItems, hv]
  simp only [renderItems, List.cons_append, List.append_assoc, skipWs_of_not_ws _ _ hcomma,
    hrec]

theorem parseFields_last (k : List Char) (v : JsVal) (fuel : Nat) (rest : List Char)
    (hv : parseValue fuel (render v ++ (renderFields [] ++ rest))
      = some (v, renderFields [] ++ rest)) :
    parseFields (fuel + 1) (quote k ++ ':' :: (render v ++ (renderFields [] ++ rest)))
      = some ([(k, v)], rest) := by
  obtain ⟨r, hr, hread⟩ := readString_quote k (':' :: (render v ++ (renderFields [] ++ rest)))
  have hquote : isWs '"' = false := by decide
  have hcolon : isWs ':' = false := by decide
  have hclose : isWs '\x7d' = false := by decide
  rw [hr]
  simp only [parseFields, skipWs_of_not_ws _ _ hquote, hread, skipWs_of_not_ws _ _ hcolon, hv]
  simp only [renderFields, List.cons_append, List.nil_append, skipWs_of_not_ws _ _ hclose]

theorem parseFields_more (k : List Char) (v : JsVal) (k1 : List Char) (v1 : JsVal)
    (fs1 : List (List Char × JsVal)) (fuel : Nat) (rest : List Char)
    (hv : parseValue fuel (render v ++ (renderFields ((k1, v1) :: fs1) ++ rest))
      = some (v, renderFields ((k1, v1) :: fs1) ++ rest))
    (hrec : parseFields fuel (quote k1 ++ ':' :: (render v1 ++ (renderFields fs1 ++ rest)))
      = some ((k1, v1) :: fs1, rest)) :
    parseFields (fuel + 1)
        (quote k ++ ':' :: (render v ++ (renderFields ((k1, v1) :: fs1) ++ rest)))
      = some ((k, v) :: (k1, v1) :: fs1, rest) := by
  obtain ⟨r, hr, hread⟩ :=
    readString_quote k (':' :: (render v ++ (renderFields ((k1, v1) :: fs1) ++ rest)))
  have hquote : isWs '"' = false := by decide
  have hcolon : isWs ':' = false := by decide
  have hcomma : isWs ',' = false := by decide
  rw [hr]
  simp only [parseFields, skipWs_of_not_ws _ _ hquote, hread, skipWs_of_not_ws _ _ hcolon, hv]
  simp only [renderFields, List.cons_append, List.append_assoc, skipWs_of_not_ws _ _ hcomma,
    hrec]


/-- Parsing what `render` wrote gives the value back and stops after it; for values, for
the elements of an array and for the members of an object, by the size of the value. -/
theorem parse_render_sized (n : Nat) :
    (∀ (v : JsVal) (fuel : Nat) (rest : List Char), sizeOf v ≤ n → v.plain = true →
      Delimited rest → 2 * (render v).length ≤ fuel →
      parseValue fuel (render v ++ rest) = some (v, rest))
    ∧ (∀ (v : JsVal) (vs : List JsVal) (fuel : Nat) (rest : List Char),
      sizeOf v + sizeOf vs ≤ n → v.plain = true → plainItems vs = true → Delimited rest →
      2 * ((render v).length + (renderItems vs).length) + 1 ≤ fuel →
      parseItems fuel (render v ++ (renderItems vs ++ rest)) = some (v :: vs, rest))
    ∧ (∀ (k : List Char) (v : JsVal) (fs : List (List Char × JsVal)) (fuel : Nat)
        (rest : List Char),
      sizeOf v + sizeOf fs ≤ n → v.plain = true → plainFields fs = true → Delimited rest →
      2 * ((render v).length + (renderFields fs).length) + 1 ≤ fuel →
      parseFields fuel (quote k ++ ':' :: (render v ++ (renderFields fs ++ rest)))
        = some ((k, v) :: fs, rest)) := by
  induction n with
  | zero =>
    refine ⟨?_, ?_, ?_⟩
    · intro v fuel rest hs
      cases v <;> simp at hs
    · intro v vs fuel rest hs
      cases v <;> simp at hs
    · intro k v fs fuel rest hs
      cases v <;> simp at hs
  | succ n ih =>
    obtain ⟨ihV, ihI, ihF⟩ := ih
    refine ⟨?_, ?_, ?_⟩
    · intro v fuel rest hs hp hd hf
      have hpos := render_length_pos v hp
      cases fuel with
      | zero => omega
      | succ fuel =>
        cases v with
        | null => rfl
        | bool b => cases b <;> rfl
        | num m => exact parseValue_num m fuel rest hd
        | numOther raw => simp [JsVal.plain] at hp
        | str s => exact parseValue_str s fuel rest
        | arr items =>
          cases items with
          | nil => rfl
          | cons v vs =>
            have hpv : v.plain = true ∧ plainItems vs = true := by
              simpa [JsVal.plain, plainItems] using hp
            apply parseValue_arr_cons v vs fuel rest hpv.1
            apply ihI v vs fuel rest _ hpv.1 hpv.2 hd
            · simp only [render, List.length_cons, List.length_append] at hf
              omega
            · simp only [JsVal.arr.sizeOf_spec, List.cons.sizeOf_spec] at hs
              omega
        | obj fields =>
          cases fields with
          | nil => rfl
          | cons f fs =>
            obtain ⟨k, v⟩ := f
            have hpv : v.plain = true ∧ plainFields fs = true := by
              simpa [JsVal.plain, plainFields] using hp
            apply parseValue_obj_cons k v fs fuel rest
            apply ihF k v fs fuel rest _ hpv.1 hpv.2 hd
            · simp only [render, List.length_cons, List.length_append] at hf
              omega
            · simp only [JsVal.obj.sizeOf_spec, List.cons.sizeOf_spec,
                Prod.mk.sizeOf_spec] at hs
              omega
    · intro v vs fuel rest hs hp hps hd hf
      cases fuel with
      | zero => omega
      | succ fuel =>
        have hpos := render_length_pos v hp
        cases vs with
        | nil =>
          apply parseItems_last
          apply ihV v fuel _ _ hp (renderItems_delimited [] rest) (by omega)
          simp only [List.nil.sizeOf_spec] at hs
          omega
        | cons v1 vs1 =>
          have hpv : v1.plain = true ∧ plainItems vs1 = true := by
            simpa [plainItems] using hps
          simp only [List.cons.sizeOf_spec] at hs
          apply parseItems_more
          · apply ihV v fuel _ _ hp (renderItems_delimited _ rest) (by omega)
            omega
          · apply ihI v1 vs1 fuel rest _ hpv.1 hpv.2 hd
            · simp only [renderItems, List.length_cons, List.length_append] at hf
              omega
            · omega
    · intro k v fs fuel rest hs hp hps hd hf
      cases fuel with
      | zero => omega
      | succ fuel =>
        have hpos := render_length_pos v hp
        cases fs with
        | nil =>
          apply parseFields_last
          apply ihV v fuel _ _ hp (renderFields_delimited [] rest) (by omega)
          simp only [List.nil.sizeOf_spec] at hs
          omega
        | cons f1 fs1 =>
          obtain ⟨k1, v1⟩ := f1
          have hpv : v1.plain = true ∧ plainFields fs1 = true := by
            simpa [plainFields] using hps
          simp only [List.cons.sizeOf_spec, Prod.mk.sizeOf_spec] at hs
          apply parseFields_more
          · apply ihV v fuel _ _ hp (renderFields_delimited _ rest) (by omega)
            omega
          · apply ihF k1 v1 fs1 fuel rest _ hpv.1 hpv.2 hd
            · simp only [renderFields, List.length_cons, List.length_append] at hf
              omega
            · omega

/-- `JSON.parse(JSON.stringify(v))` is `v`, for a value all of whose numbers are
non-negative integer numerals. -/
theorem jsonParse_stringify (v : JsVal) (hp : v.plain = true) :
    jsonParse (stringify v) = some v := by
  have hd : Delimited [] := fun c r h => by simp at h
  have h := (parse_render_sized (sizeOf v)).1 v (2 * (render v).length + 2) [] (le_refl _) hp
    hd (by omega)
  simp only [List.append_nil] at h
  simp [jsonParse, stringify, h, skipWs]


/-! ## The collection is read back -/

theorem insertIndexed_last (i : Nat) (k : String) (v : Bool) :
    ∀ acc : List (String × Bool),
      (∀ kv ∈ acc, ∃ j, arrayIndex? kv.1 = some j ∧ j < i) →
      insertIndexed i k v acc = acc ++ [(k, v)] := by
  intro acc
  induction acc with
  | nil => intro _; rfl
  | cons kv rest ih =>
    intro h
    obtain ⟨j, hj, hlt⟩ := h kv (List.mem_cons_self _ _)
    have hrest := ih fun kv2 h2 => h kv2 (List.mem_cons_of_mem _ h2)
    simp only [insertIndexed, hj, hlt, if_true, hrest, List.cons_append]

theorem defineProp_last (acc : List (String × Bool)) (k : String) (v : Bool)
    (hk : k ∉ acc.map Prod.fst) (hord : ∀ a ∈ acc.map Prod.fst, listedBefore a k) :
    defineProp acc k v = acc ++ [(k, v)] := by
  have hown : hasOwn acc k = false := by
    rw [Bool.eq_false_iff]
    intro h
    exact hk ((hasOwn_iff acc k).1 h)
  unfold defineProp
  rw [hown]
  simp only [Bool.false_eq_true, if_false]
  cases hi : arrayIndex? k with
  | none => rfl
  | some i =>
    simp only
    apply insertIndexed_last
    intro kv hkv
    have hb := hord kv.1 (List.mem_map_of_mem Prod.fst hkv)
    unfold listedBefore at hb
    rw [hi] at hb
    cases hj : arrayIndex? kv.1 with
    | none => rw [hj] at hb; exact hb.elim
    | some j => rw [hj] at hb; exact ⟨j, rfl, hb⟩

theorem tasksOfJs_tasksToJs (tasks : List (String × Bool)) :
    ∀ acc : List (String × Bool), ((acc ++ tasks).map Prod.fst).Nodup →
      ((acc ++ tasks).map Prod.fst).Pairwise listedBefore →
      tasksOfJs (tasksToJs tasks) acc = some (acc ++ tasks) := by
  induction tasks with
  | nil => intro acc _ _; simp [tasksToJs, tasksOfJs]
  | cons kv rest ih =>
    intro acc hnd hord
    obtain ⟨k, b⟩ := kv
    have hassoc : acc ++ (k, b) :: rest = (acc ++ [(k, b)]) ++ rest := by simp
    have hnd2 := hnd
    have hord2 := hord
    rw [hassoc] at hnd2 hord2
    simp only [List.map_append, List.map_cons, List.nodup_append, List.nodup_cons,
      List.pairwise_append, List.pairwise_cons] at hnd hord
    have hk : k ∉ acc.map Prod.fst := by
      intro hmem
      exact hnd.2.2 hmem (List.mem_cons_self _ _) 
    have hbefore : ∀ a ∈ acc.map Prod.fst, listedBefore a k := by
      intro a ha
      exact hord.2.2 a ha k (List.mem_cons_self _ _)
    have hset := defineProp_last acc k b hk hbefore
    have hrec := ih (acc ++ [(k, b)]) hnd2 hord2
    simp only [tasksToJs, List.map_cons, tasksOfJs, hset]
    simpa [tasksToJs] using hrec

theorem plainFields_tasksToJs (tasks : List (String × Bool)) :
    plainFields (tasksToJs tasks) = true := by
  induction tasks with
  | nil => rfl
  | cons kv rest ih => simpa [tasksToJs, plainFields, JsVal.plain] using ih

theorem Project.toJs_plain (p : Project) : p.toJs.plain = true := by
  cases h : p.lastModified <;>
    simp [Project.toJs, h, JsVal.plain, plainFields, plainFields_tasksToJs]

theorem Project.ofJs_toJs (p : Project) (hwf : p.WellFormed) : Project.ofJs p.toJs = some p := by
  have htasks := tasksOfJs_tasksToJs p.tasks [] (by simpa using hwf.1.1)
    (by simpa using hwf.1.2)
  simp only [List.nil_append] at htasks
  have hprog : p.progress ≤ maxSafeInteger := hwf.2
  cases h : p.lastModified with
  | none =>
    simp only [Project.toJs, h, List.cons_append, List.nil_append, List.append_nil,
      Project.ofJs, htasks, hprog, and_self, if_true]
    cases p
    simp_all
  | some t =>
    simp only [Project.toJs, h, List.cons_append, List.nil_append,
      Project.ofJs, htasks, hprog, and_self, if_true]
    cases p
    simp_all

theorem projectsOfJs_projectsToJs (ps : List Project) (hwf : ∀ p ∈ ps, p.WellFormed) :
    projectsOfJs (projectsToJs ps) = some ps := by
  unfold projectsOfJs projectsToJs
  simp only
  induction ps with
  | nil => rfl
  | cons p ps ih =>
    have hp := Project.ofJs_toJs p (hwf p (List.mem_cons_self p ps))
    have hps := ih fun q hq => hwf q (List.mem_cons_of_mem p hq)
    simp [projectsOfItems, hp, hps]

theorem projectsToJs_plain (ps : List Project) : (projectsToJs ps).plain = true := by
  unfold projectsToJs
  simp only [JsVal.plain]
  induction ps with
  | nil => rfl
  | cons p ps ih => simp [plainItems, Project.toJs_plain, ih]

theorem stringify_projects_ne_empty (ps : List Project) :
    stringify (projectsToJs ps) ≠ "" := by
  intro h
  have := congrArg String.data h
  cases ps <;> simp [stringify, projectsToJs, render] at this

theorem loadProjects_of_stored (env : Env) (pm : ProjectManager) (ps : List Project)
    (hwf : ∀ p ∈ ps, p.WellFormed)
    (hdenied : pm.storage.denied = false)
    (hslot : pm.storage.slot = some (stringify (projectsToJs ps))) :
    ∃ pm', loadProjects env pm = .done pm' ∧ pm'.projects = ps := by
  have hparse := jsonParse_stringify (projectsToJs ps) (projectsToJs_plain ps)
  have hview := projectsOfJs_projectsToJs ps hwf
  have hne := stringify_projects_ne_empty ps
  unfold loadProjects
  simp only [Storage.getItem, hdenied, Bool.false_eq_true, if_false, hslot, hne, hparse]
  have hnull : projectsToJs ps ≠ .null := by simp [projectsToJs]
  split
  · next heq => simp at heq
  · next heq =>
    simp only [Option.some.injEq] at heq
    exact absurd heq hnull
  · next v hv heq =>
    simp only [Option.some.injEq] at heq
    subst heq
    simp only [hview]
    exact ⟨_, rfl, by simp⟩


theorem Storage.setItem_of_ok (st s : Storage) (payload : String)
    (hok : st.setItem payload = .ok s) : s.denied = false ∧ s.slot = some payload := by
  unfold Storage.setItem at hok
  by_cases hden : st.denied = true
  · simp [hden] at hok
  · simp only [hden, Bool.false_eq_true, if_false] at hok
    simp only [Bool.not_eq_true] at hden
    split at hok
    · split at hok
      · simp at hok
      · simp only [Except.ok.injEq] at hok
        rw [← hok]
        exact ⟨rfl, rfl⟩
    · simp only [Except.ok.injEq] at hok
      rw [← hok]
      exact ⟨rfl, rfl⟩

/-- What `saveProjects` leaves: the call of `setItem` comes first; when it succeeds the
storage is the one it gives and no alert follows; when it throws the storage is as before
and an alert of type `error` follows. -/
theorem saveProjects_outcome (pm : ProjectManager) :
    ∃ es, (saveProjects pm).log
        = pm.log ++ .setItem "weddingProjects" (stringify (projectsToJs pm.projects)) :: es
      ∧ (∀ m, Effect.alert m .success ∉ es)
      ∧ (∀ s, pm.storage.setItem (stringify (projectsToJs pm.projects)) = .ok s →
          (saveProjects pm).storage = s ∧ ∀ m t, Effect.alert m t ∉ es)
      ∧ (∀ e, pm.storage.setItem (stringify (projectsToJs pm.projects)) = .error e →
          (saveProjects pm).storage = pm.storage ∧ ∃ m, Effect.alert m .error ∈ es) := by
  unfold saveProjects
  simp only [emit_storage]
  cases h : pm.storage.setItem (stringify (projectsToJs pm.projects)) with
  | ok s => exact ⟨[], by simp [ProjectManager.emit], by simp, by simp, by simp⟩
  | error e =>
    cases e with
    | quotaExceeded =>
      exact ⟨[.consoleError "Error saving projects to localStorage:",
        .alert "Storage limit exceeded. Try removing old projects." .error],
        by simp [showNotification, ProjectManager.emit], by simp, by simp,
        by simp [showNotification, ProjectManager.emit]⟩
    | other =>
      exact ⟨[.consoleError "Error saving projects to localStorage:",
        .alert "Failed to save your projects. Please check your browser settings." .error],
        by simp [showNotification, ProjectManager.emit], by simp, by simp,
        by simp [showNotification, ProjectManager.emit]⟩

set_option maxRecDepth 1000000 in
/-- C5 as stated fails: with a `localStorage` that has no room for a text of more than
100 characters, `addProject` on the empty store appends the new project to the collection
in memory, but the write throws: the storage still holds nothing, and the user is alerted
that the storage limit is exceeded. -/
theorem addProject_write_rejected :
    (addProject demoEnv 1735689600002 "2025-01-01T10:00:00.000Z"
        ⟨"Jones Wedding", "2025-01-01"⟩ (fullStorageManager [])).projects
      = [{ demoProject "1735689600002" "2025-01-01" false with name := "Jones Wedding" }]
      ∧ (addProject demoEnv 1735689600002 "2025-01-01T10:00:00.000Z"
        ⟨"Jones Wedding", "2025-01-01"⟩ (fullStorageManager [])).storage.slot = none
      ∧ (addProject demoEnv 1735689600002 "2025-01-01T10:00:00.000Z"
        ⟨"Jones Wedding", "2025-01-01"⟩ (fullStorageManager [])).log
        = [.setItem "weddingProjects" jonesWeddingText,
           .consoleError "Error saving projects to localStorage:",
           .alert "Storage limit exceeded. Try removing old projects." .error,
           .alert "Project \"Jones Wedding\" added successfully" .success] := by
  decide

/-- C5 as amended: for a non-empty name and a non-empty date, `addProject` leaves the
previous collection, in its order, followed by one new project whose four tasks are
false, whose `progress` is 0, whose `completed` is false and whose date is the one
supplied.  It then calls `localStorage.setItem` with the serialised new collection, a
text that `JSON.parse` reads back as that collection (the projects of the store being as
the browser holds them).  When the call succeeds the storage holds that text and no
alert of type `error` is raised; when it throws, the storage is as before, the collection
in memory stands and an alert of type `error` is raised. -/
theorem addProject_appends (env : Env) (now : Nat) (stamp : String) (d : ProjectData)
    (pm : ProjectManager) (hname : d.name ≠ "") (hdate : d.date ≠ "") :
    ∃ p es, (addProject env now stamp d pm).projects = pm.projects ++ [p]
      ∧ p.tasks = [("cull", false), ("speeches", false), ("featureFilm", false),
                   ("shortFilm", false)]
      ∧ p.progress = 0 ∧ p.completed = false ∧ p.date = d.date
      ∧ (addProject env now stamp d pm).log = pm.log ++
          Effect.setItem "weddingProjects" (stringify (projectsToJs (pm.projects ++ [p]))) :: es
      ∧ ((∀ q ∈ pm.projects, q.WellFormed) →
          (jsonParse (stringify (projectsToJs (pm.projects ++ [p])))).bind projectsOfJs
            = some (pm.projects ++ [p]))
      ∧ (∀ s, pm.storage.setItem (stringify (projectsToJs (pm.projects ++ [p]))) = .ok s →
          (addProject env now stamp d pm).storage = s
          ∧ (addProject env now stamp d pm).storage.slot
              = some (stringify (projectsToJs (pm.projects ++ [p])))
          ∧ ∀ m, Effect.alert m .error ∉ es)
      ∧ (∀ e, pm.storage.setItem (stringify (projectsToJs (pm.projects ++ [p]))) = .error e →
          (addProject env now stamp d pm).storage = pm.storage
          ∧ ∃ m, Effect.alert m .error ∈ es) := by
  unfold addProject
  simp only [hname, hdate, or_self, if_false]
  generalize hp : (Project.mk (String.mk (natDigits now)) (sanitizeInput d.name) d.date
    (env.formatDate d.date) [("cull", false), ("speeches", false), ("featureFilm", false),
      ("shortFilm", false)] false 0 stamp none) = p
  have hpwf : p.WellFormed := by
    have h1 : (["cull", "speeches", "featureFilm", "shortFilm"] : List String).Nodup := by
      decide
    have h2 : List.Pairwise listedBefore ["cull", "speeches", "featureFilm", "shortFilm"] := by
      decide
    rw [← hp]
    exact ⟨⟨h1, h2⟩, Nat.zero_le _⟩
  have key : ∀ (msg : String) (pm1 : ProjectManager), pm1.projects = pm.projects ++ [p] →
      pm1.log = pm.log → pm1.storage = pm.storage →
      ∃ es, (showNotification (updateChart (renderProjects env (saveProjects pm1)))
          msg .success).log = pm.log ++
          Effect.setItem "weddingProjects" (stringify (projectsToJs (pm.projects ++ [p]))) :: es
      ∧ (∀ s, pm.storage.setItem (stringify (projectsToJs (pm.projects ++ [p]))) = .ok s →
          (showNotification (updateChart (renderProjects env (saveProjects pm1)))
            msg .success).storage = s
          ∧ (showNotification (updateChart (renderProjects env (saveProjects pm1)))
            msg .success).storage.slot = some (stringify (projectsToJs (pm.projects ++ [p])))
          ∧ ∀ m, Effect.alert m .error ∉ es)
      ∧ (∀ e, pm.storage.setItem (stringify (projectsToJs (pm.projects ++ [p]))) = .error e →
          (showNotification (updateChart (renderProjects env (saveProjects pm1)))
            msg .success).storage = pm.storage
          ∧ ∃ m, Effect.alert m .error ∈ es) := by
    intro msg pm1 h1 h2 h3
    obtain ⟨es2, l2, -, hok2, herr2⟩ := saveProjects_outcome pm1
    obtain ⟨es3, l3, n3, -⟩ := renderProjects_log env (saveProjects pm1)
    obtain ⟨es4, l4, n4, -⟩ := updateChart_log (renderProjects env (saveProjects pm1))
    rw [h1, h3] at hok2 herr2
    refine ⟨es2 ++ es3 ++ es4 ++ [.alert msg .success], ?_, ?_, ?_⟩
    · simp [l4, l3, l2, h1, h2]
    · intro s hs
      simp only [showNotification_storage, updateChart_storage, renderProjects_storage]
      obtain ⟨hst, hno⟩ := hok2 s hs
      refine ⟨hst, ?_, ?_⟩
      · rw [hst]
        exact (Storage.setItem_of_ok _ _ _ hs).2
      · intro m hm
        simp only [List.mem_append, List.mem_singleton, Effect.alert.injEq] at hm
        rcases hm with ((h | h) | h) | h
        · exact hno _ _ h
        · exact n3 _ _ h
        · exact n4 _ _ h
        · exact absurd h.2 (by decide)
    · intro e he
      simp only [showNotification_storage, updateChart_storage, renderProjects_storage]
      obtain ⟨hst, m, hm⟩ := herr2 e he
      exact ⟨hst, m, by simp [hm]⟩
  obtain ⟨es, hl, hok, herr⟩ := key _ { pm with projects := pm.projects ++ [p] } rfl rfl rfl
  have hback : (∀ q ∈ pm.projects, q.WellFormed) →
      (jsonParse (stringify (projectsToJs (pm.projects ++ [p])))).bind projectsOfJs
        = some (pm.projects ++ [p]) := by
    intro hwf
    rw [jsonParse_stringify _ (projectsToJs_plain _)]
    apply projectsOfJs_projectsToJs
    intro q hq
    rcases List.mem_append.1 hq with hq | hq
    · exact hwf q hq
    · rw [List.mem_singleton.1 hq]
      exact hpwf
  refine ⟨p, es, by simp, ?_, ?_, ?_, ?_, hl, hback, hok, herr⟩ <;> rw [← hp]

set_option maxRecDepth 1000000 in
/-- C5 as amended, at a store of one complete project to which "Jones Wedding" of
1 January 2025 is added, with the text the storage then holds. -/
theorem addProject_appends_witness :
    (∃ p es, (addProject demoEnv 1735689600002 "2025-01-01T10:00:00.000Z"
          ⟨"Jones Wedding", "2025-01-01"⟩
          (demoManager [demoProject "1735689600000" "2025-03-01" true])).projects
        = (demoManager [demoProject "1735689600000" "2025-03-01" true]).projects ++ [p]
      ∧ p.tasks = [("cull", false), ("speeches", false), ("featureFilm", false),
                   ("shortFilm", false)]
      ∧ p.progress = 0 ∧ p.completed = false
      ∧ p.date = (ProjectData.mk "Jones Wedding" "2025-01-01").date
      ∧ (addProject demoEnv 1735689600002 "2025-01-01T10:00:00.000Z"
          ⟨"Jones Wedding", "2025-01-01"⟩
          (demoManager [demoProject "1735689600000" "2025-03-01" true])).log
        = (demoManager [demoProject "1735689600000" "2025-03-01" true]).log ++
          Effect.setItem "weddingProjects" (stringify (projectsToJs
            ((demoManager [demoProject "1735689600000" "2025-03-01" true]).projects
              ++ [p]))) :: es
      ∧ ((∀ q ∈ (demoManager [demoProject "1735689600000" "2025-03-01" true]).projects,
            q.WellFormed) →
          (jsonParse (stringify (projectsToJs
            ((demoManager [demoProject "1735689600000" "2025-03-01" true]).projects
              ++ [p])))).bind projectsOfJs
            = some ((demoManager [demoProject "1735689600000" "2025-03-01" true]).projects
              ++ [p]))
      ∧ (∀ s, (demoManager [demoProject "1735689600000" "2025-03-01" true]).storage.setItem
            (stringify (projectsToJs
              ((demoManager [demoProject "1735689600000" "2025-03-01" true]).projects
                ++ [p]))) = .ok s →
          (addProject demoEnv 1735689600002 "2025-01-01T10:00:00.000Z"
            ⟨"Jones Wedding", "2025-01-01"⟩
            (demoManager [demoProject "1735689600000" "2025-03-01" true])).storage = s
          ∧ (addProject demoEnv 1735689600002 "2025-01-01T10:00:00.000Z"
            ⟨"Jones Wedding", "2025-01-01"⟩
            (demoManager [demoProject "1735689600000" "2025-03-01" true])).storage.slot
              = some (stringify (projectsToJs
                ((demoManager [demoProject "1735689600000" "2025-03-01" true]).projects
                  ++ [p])))
          ∧ ∀ m, Effect.alert m .error ∉ es)
      ∧ (∀ e, (demoManager [demoProject "1735689600000" "2025-03-01" true]).storage.setItem
            (stringify (projectsToJs
              ((demoManager [demoProject "1735689600000" "2025-03-01" true]).projects
                ++ [p]))) = .error e →
          (addProject demoEnv 1735689600002 "2025-01-01T10:00:00.000Z"
            ⟨"Jones Wedding", "2025-01-01"⟩
            (demoManager [demoProject "1735689600000" "2025-03-01" true])).storage
            = (demoManager [demoProject "1735689600000" "2025-03-01" true]).storage
          ∧ ∃ m, Effect.alert m .error ∈ es))
    ∧ (addProject demoEnv 1735689600002 "2025-01-01T10:00:00.000Z"
          ⟨"Jones Wedding", "2025-01-01"⟩
          (demoManager [demoProject "1735689600000" "2025-03-01" true])).storage.slot
        = some twoWeddingsText :=
  ⟨addProject_appends demoEnv 1735689600002 "2025-01-01T10:00:00.000Z"
    ⟨"Jones Wedding", "2025-01-01"⟩
    (demoManager [demoProject "1735689600000" "2025-03-01" true]) (by decide) (by decide),
   by decide⟩


/-- C9: when the write of `saveProjects` succeeds, `loadProjects` in any manager that
shares the storage (the saving one, or a new one after a reload) returns with a
collection equal to the one saved: the same projects in the same order, each with the
same id, name, date, tasks, `progress`, `completed` and time stamps.  The projects are
taken as the browser holds them: distinct task names, in the order an object lists its
properties, and `progress` an exact integer. -/
theorem saveProjects_loadProjects (env : Env) (pm pm2 : ProjectManager) (s : Storage)
    (hwf : ∀ p ∈ pm.projects, p.WellFormed)
    (hok : pm.storage.setItem (stringify (projectsToJs pm.projects)) = .ok s)
    (hshare : pm2.storage = (saveProjects pm).storage) :
    ∃ pm', loadProjects env pm2 = .done pm' ∧ pm'.projects = pm.projects := by
  have hs : pm2.storage = s := by rw [hshare, saveProjects_storage_of_ok pm s hok]
  have hfacts := Storage.setItem_of_ok _ _ _ hok
  exact loadProjects_of_stored env pm2 pm.projects hwf (hs ▸ hfacts.1) (hs ▸ hfacts.2)

/-- C9, at a store of a complete and a new project, read back by a new manager. -/
theorem saveProjects_loadProjects_witness :
    ∃ pm', loadProjects demoEnv
          { demoManager [] with
            storage := (saveProjects (demoManager
              [demoProject "1735689600000" "2025-03-01" true,
               demoProject "1735689600002" "2025-01-01" false])).storage } = .done pm'
      ∧ pm'.projects = (demoManager
          [demoProject "1735689600000" "2025-03-01" true,
           demoProject "1735689600002" "2025-01-01" false]).projects :=
  saveProjects_loadProjects demoEnv
    (demoManager [demoProject "1735689600000" "2025-03-01" true,
                  demoProject "1735689600002" "2025-01-01" false])
    { demoManager [] with
      storage := (saveProjects (demoManager
        [demoProject "1735689600000" "2025-03-01" true,
         demoProject "1735689600002" "2025-01-01" false])).storage }
    ⟨some (stringify (projectsToJs
      [demoProject "1735689600000" "2025-03-01" true,
       demoProject "1735689600002" "2025-01-01" false])), false, none⟩
    (by
      intro p hp
      simp only [demoManager, List.mem_cons, List.mem_singleton, List.not_mem_nil,
        or_false] at hp
      rcases hp with hp | hp <;> rw [hp] <;> exact ⟨⟨by decide, by decide⟩, by decide⟩)
    rfl rfl

set_option maxRecDepth 1000000 in
/-- C10 as stated fails, twice.  A stored payload that parses, holding one project record
whose tasks object lacks three of the four task keys, is loaded as it is: `loadProjects`
ends with that project in the collection and signals no error.  And the empty text, which
`JSON.parse` rejects, is not parsed at all: `loadProjects` ends with the collection as it
was, empty here, and signals nothing. -/
theorem loadProjects_keeps_short_tasks :
    ((loadProjects demoEnv (managerWithStored shortTasksPayload)).state?.map
        (fun pm => (pm.projects, pm.log))
      = some ([shortTasksProject], [.consoleInfo "Loaded 1 projects from localStorage"])
      ∧ shortTasksProject.tasks.map Prod.fst = ["cull"])
    ∧ ((jsonParse "").isNone = true
      ∧ (loadProjects demoEnv (managerWithStored "")).state?.map
          (fun pm => (pm.projects, pm.log)) = some ([], [])) := by
  decide

/-- C10 as amended: for a stored payload that is not the empty text and that `JSON.parse`
rejects, or that parses to `null`, `loadProjects` returns with an empty collection, and
the calls it adds to the log hold the alert that loading failed. -/
theorem loadProjects_unparseable (env : Env) (pm : ProjectManager) (saved : String)
    (hslot : pm.storage.slot = some saved) (hne : saved ≠ "")
    (hbad : jsonParse saved = none ∨ jsonParse saved = some .null) :
    ∃ pm' es, loadProjects env pm = .done pm' ∧ pm'.projects = []
      ∧ pm'.log = pm.log ++ es
      ∧ Effect.alert "Error loading saved projects. Starting with empty project list." .error
          ∈ es := by
  have hlog : ∀ q : ProjectManager, ∃ es,
      (renderProjects env (loadFailed q)).log = q.log ++ es
      ∧ Effect.alert "Error loading saved projects. Starting with empty project list." .error
        ∈ es := by
    intro q
    obtain ⟨es, hes, -⟩ := renderProjects_log env (loadFailed q)
    refine ⟨[.consoleError "Error loading projects from localStorage:",
      .alert "Error loading saved projects. Starting with empty project list." .error] ++ es,
      ?_, by simp⟩
    rw [hes]
    simp [loadFailed, showNotification, ProjectManager.emit]
  have hproj : ∀ q : ProjectManager, (renderProjects env (loadFailed q)).projects = [] := by
    intro q
    simp [loadFailed]
  obtain ⟨es, hes, hmem⟩ := hlog pm
  unfold loadProjects
  unfold Storage.getItem
  by_cases hden : pm.storage.denied = true
  · simp only [hden, if_true]
    exact ⟨_, es, rfl, hproj pm, hes, hmem⟩
  · simp only [hden, Bool.false_eq_true, if_false, hslot, hne]
    rcases hbad with hbad | hbad <;> rw [hbad] <;> exact ⟨_, es, rfl, hproj pm, hes, hmem⟩

/-- C10 as amended, at a payload cut off in the middle of an array. -/
theorem loadProjects_unparseable_witness :
    ∃ pm' es, loadProjects demoEnv (managerWithStored "[1,2") = .done pm' ∧ pm'.projects = []
      ∧ pm'.log = (managerWithStored "[1,2").log ++ es
      ∧ Effect.alert "Error loading saved projects. Starting with empty project list." .error
          ∈ es :=
  loadProjects_unparseable demoEnv (managerWithStored "[1,2") "[1,2" rfl (by decide)
    (Or.inl rfl)


/-! ## The fuel of the parser is enough

Every step of the parser that spends fuel has read a character, so the fuel `jsonParse`
gives, twice the length of the text and two, is never used up: more fuel gives the same
answer. -/

theorem skipWs_length_le (cs : List Char) : (skipWs cs).length ≤ cs.length := by
  induction cs with
  | nil => simp [skipWs]
  | cons c cs ih =>
    unfold skipWs
    split
    · simp only [List.length_cons]
      omega
    · exact le_refl _

theorem spanDigits_length (cs : List Char) :
    (spanDigits cs).1.length + (spanDigits cs).2.length = cs.length := by
  induction cs with
  | nil => rfl
  | cons c cs ih =>
    unfold spanDigits
    split
    · simp only [List.length_cons]
      omega
    · simp

theorem readFraction_length (cs frac rest : List Char)
    (h : readFraction cs = some (frac, rest)) : rest.length ≤ cs.length := by
  unfold readFraction at h
  split at h
  · next cs1 =>
    have hlen := spanDigits_length cs1
    split at h
    · simp at h
    · next ds r _ heq =>
      simp only [Option.some.injEq, Prod.mk.injEq] at h
      rw [heq] at hlen
      simp only at hlen
      rw [← h.2]
      simp only [List.length_cons]
      omega
  · simp only [Option.some.injEq, Prod.mk.injEq] at h
    rw [← h.2]

theorem readExponent_length (cs exp rest : List Char)
    (h : readExponent cs = some (exp, rest)) : rest.length ≤ cs.length := by
  unfold readExponent at h
  split at h
  · simp only [Option.some.injEq, Prod.mk.injEq] at h
    rw [← h.2]
  · next c cs1 =>
    split at h
    · split at h
      · simp at h
      · next s cs2 =>
        split at h
        · have hlen := spanDigits_length cs2
          split at h
          · simp at h
          · next ds r _ heq =>
            simp only [Option.some.injEq, Prod.mk.injEq] at h
            rw [heq] at hlen
            simp only at hlen
            rw [← h.2]
            simp only [List.length_cons]
            omega
        · have hlen := spanDigits_length (s :: cs2)
          split at h
          · simp at h
          · next ds r _ heq =>
            simp only [Option.some.injEq, Prod.mk.injEq] at h
            rw [heq] at hlen
            simp only [List.length_cons] at hlen
            rw [← h.2]
            simp only [List.length_cons]
            omega
    · simp only [Option.some.injEq, Prod.mk.injEq] at h
      rw [← h.2]

theorem readNumber_length (cs : List Char) (v : JsVal) (rest : List Char)
    (h : readNumber cs = some (v, rest)) : rest.length < cs.length := by
  unfold readNumber at h
  simp only at h
  generalize hsign : (match cs with
    | '-' :: r => (['-'], r)
    | _ => (([] : List Char), cs)) = sign at h
  have hs : sign.2.length ≤ cs.length := by
    rw [← hsign]
    split
    · simp
    · exact le_refl _
  have hlen := spanDigits_length sign.2
  split at h
  · simp at h
  · next d ds r heq =>
    rw [heq] at hlen
    simp only [List.length_cons] at hlen
    split at h
    · simp at h
    · split at h
      · simp at h
      · next frac rest1 hfrac =>
        have h1 := readFraction_length _ _ _ hfrac
        split at h
        · simp at h
        · next exp rest2 hexp =>
          have h2 := readExponent_length _ _ _ hexp
          have : rest = rest2 := by
            split at h <;> simp only [Option.some.injEq, Prod.mk.injEq] at h <;> exact h.2.symm
          rw [this]
          omega


theorem readUnicode_length (r rest : List Char) (x : Char)
    (h : (match r with
      | a :: b :: c1 :: d :: r1 =>
        match hex4 a b c1 d with
        | none => none
        | some n =>
          if 55296 ≤ n ∧ n < 56320 then
            match r1 with
            | '\\' :: 'u' :: a2 :: b2 :: c2 :: d2 :: r2 =>
              match hex4 a2 b2 c2 d2 with
              | some m =>
                if 56320 ≤ m ∧ m < 57344 then
                  some (Char.ofNat (65536 + (n - 55296) * 1024 + (m - 56320)), r2)
                else some (replacementChar, r1)
              | none => some (replacementChar, r1)
            | _ => some (replacementChar, r1)
          else if 56320 ≤ n ∧ n < 57344 then some (replacementChar, r1)
          else some (Char.ofNat n, r1)
      | _ => none) = some (x, rest)) : rest.length < r.length := by
  split at h
  · next a b c1 d r1 =>
    split at h
    · simp at h
    · next n _ =>
      split_ifs at h
      · split at h
        · next a2 b2 c2 d2 r2 =>
          split at h
          · split_ifs at h
            · simp only [Option.some.injEq, Prod.mk.injEq] at h
              rw [← h.2]
              simp only [List.length_cons]
              omega
            · simp only [Option.some.injEq, Prod.mk.injEq] at h
              rw [← h.2]
              simp only [List.length_cons]
              omega
          · simp only [Option.some.injEq, Prod.mk.injEq] at h
            rw [← h.2]
            simp only [List.length_cons]
            omega
        · simp only [Option.some.injEq, Prod.mk.injEq] at h
          rw [← h.2]
          simp only [List.length_cons]
          omega
      · simp only [Option.some.injEq, Prod.mk.injEq] at h
        rw [← h.2]
        simp only [List.length_cons]
        omega
      · simp only [Option.some.injEq, Prod.mk.injEq] at h
        rw [← h.2]
        simp only [List.length_cons]
        omega
  · simp at h

theorem readStringChar_length (cs : List Char) (x : Char) (rest : List Char)
    (h : readStringChar cs = some (x, rest)) : rest.length < cs.length := by
  cases cs with
  | nil => simp [readStringChar] at h
  | cons c cs1 =>
    by_cases hb : c = '\\'
    · cases cs1 with
      | nil => simp [readStringChar, hb] at h
      | cons e r =>
        simp only [readStringChar, hb, if_true] at h
        by_cases hu : e = 'u'
        · have hne : ¬ 'u' = '"' ∧ ¬ 'u' = '\\' ∧ ¬ 'u' = '/' ∧ ¬ 'u' = 'b' ∧ ¬ 'u' = 'f'
              ∧ ¬ 'u' = 'n' ∧ ¬ 'u' = 'r' ∧ ¬ 'u' = 't' := by decide
          simp only [hu, hne, if_false, if_true] at h
          have := readUnicode_length r rest x h
          simp only [List.length_cons]
          omega
        · simp only [hu, if_false] at h
          split_ifs at h <;>
            (simp only [Option.some.injEq, Prod.mk.injEq] at h
             rw [← h.2]
             simp only [List.length_cons]
             omega)
    · simp only [readStringChar, hb, if_false] at h
      split_ifs at h
      simp only [Option.some.injEq, Prod.mk.injEq] at h
      rw [← h.2]
      simp

theorem readString_length (fuel : Nat) : ∀ (cs s rest : List Char),
    readString fuel cs = some (s, rest) → rest.length < cs.length := by
  induction fuel with
  | zero => intro cs s rest h; simp [readString] at h
  | succ fuel ih =>
    intro cs s rest h
    cases cs with
    | nil => simp [readString] at h
    | cons c r =>
      simp only [readString] at h
      split_ifs at h
      · simp only [Option.some.injEq, Prod.mk.injEq] at h
        rw [← h.2]
        simp
      · split at h
        · simp at h
        · next x r1 hchar =>
          have h1 := readStringChar_length _ _ _ hchar
          split at h
          · simp at h
          · next xs r2 hrec =>
            have h2 := ih _ _ _ hrec
            simp only [Option.some.injEq, Prod.mk.injEq] at h
            rw [← h.2]
            omega


theorem parse_length (fuel : Nat) :
    (∀ (cs : List Char) (v : JsVal) (rest : List Char),
      parseValue fuel cs = some (v, rest) → rest.length < cs.length)
    ∧ (∀ (cs : List Char) (vs : List JsVal) (rest : List Char),
      parseItems fuel cs = some (vs, rest) → rest.length < cs.length)
    ∧ (∀ (cs : List Char) (fs : List (List Char × JsVal)) (rest : List Char),
      parseFields fuel cs = some (fs, rest) → rest.length < cs.length) := by
  induction fuel with
  | zero =>
    refine ⟨?_, ?_, ?_⟩ <;> intro cs v rest h
    · simp [parseValue] at h
    · simp [parseItems] at h
    · simp [parseFields] at h
  | succ fuel ih =>
    obtain ⟨ihV, ihI, ihF⟩ := ih
    refine ⟨?_, ?_, ?_⟩
    · intro cs v rest h
      have hws := skipWs_length_le cs
      simp only [parseValue] at h
      cases hsk : skipWs cs with
      | nil => simp [hsk] at h
      | cons c r =>
        rw [hsk] at h hws
        simp only [List.length_cons] at hws
        simp only at h
        split_ifs at h
        · split at h
          · simp at h
          · next s r1 hstr =>
            have := readString_length _ _ _ _ hstr
            simp only [Option.some.injEq, Prod.mk.injEq] at h
            rw [← h.2]
            omega
        · have hws2 := skipWs_length_le r
          split at h
          · next r1 heq =>
            rw [heq] at hws2
            simp only [List.length_cons] at hws2
            simp only [Option.some.injEq, Prod.mk.injEq] at h
            rw [← h.2]
            omega
          · split at h
            · simp at h
            · next vs r1 hitems =>
              have := ihI _ _ _ hitems
              simp only [Option.some.injEq, Prod.mk.injEq] at h
              rw [← h.2]
              omega
        · have hws2 := skipWs_length_le r
          split at h
          · next r1 heq =>
            rw [heq] at hws2
            simp only [List.length_cons] at hws2
            simp only [Option.some.injEq, Prod.mk.injEq] at h
            rw [← h.2]
            omega
          · split at h
            · simp at h
            · next fs r1 hfields =>
              have := ihF _ _ _ hfields
              simp only [Option.some.injEq, Prod.mk.injEq] at h
              rw [← h.2]
              omega
        · split at h
          · simp only [Option.some.injEq, Prod.mk.injEq] at h
            rw [← h.2]
            simp only [List.length_cons] at hws
            omega
          · simp at h
        · split at h
          · simp only [Option.some.injEq, Prod.mk.injEq] at h
            rw [← h.2]
            simp only [List.length_cons] at hws
            omega
          · simp at h
        · split at h
          · simp only [Option.some.injEq, Prod.mk.injEq] at h
            rw [← h.2]
            simp only [List.length_cons] at hws
            omega
          · simp at h
        · have := readNumber_length _ _ _ h
          simp only [List.length_cons] at this
          omega
    · intro cs vs rest h
      simp only [parseItems] at h
      split at h
      · simp at h
      · next v r hv =>
        have h1 := ihV _ _ _ hv
        have hws := skipWs_length_le r
        split at h
        · next r1 heq =>
          rw [heq] at hws
          simp only [List.length_cons] at hws
          split at h
          · simp at h
          · next vs1 r2 hrec =>
            have := ihI _ _ _ hrec
            simp only [Option.some.injEq, Prod.mk.injEq] at h
            rw [← h.2]
            omega
        · next r1 heq =>
          rw [heq] at hws
          simp only [List.length_cons] at hws
          simp only [Option.some.injEq, Prod.mk.injEq] at h
          rw [← h.2]
          omega
        · simp at h
    · intro cs fs rest h
      have hws := skipWs_length_le cs
      simp only [parseFields] at h
      split at h
      · next r heq =>
        rw [heq] at hws
        simp only [List.length_cons] at hws
        split at h
        · simp at h
        · next k r1 hstr =>
          have h1 := readString_length _ _ _ _ hstr
          have hws1 := skipWs_length_le r1
          split at h
          · next r2 heq2 =>
            rw [heq2] at hws1
            simp only [List.length_cons] at hws1
            split at h
            · simp at h
            · next v r3 hv =>
              have h3 := ihV _ _ _ hv
              have hws3 := skipWs_length_le r3
              split at h
              · next r4 heq4 =>
                rw [heq4] at hws3
                simp only [List.length_cons] at hws3
                split at h
                · simp at h
                · next fs1 r5 hrec =>
                  have := ihF _ _ _ hrec
                  simp only [Option.some.injEq, Prod.mk.injEq] at h
                  rw [← h.2]
                  omega
              · next r4 heq4 =>
                rw [heq4] at hws3
                simp only [List.length_cons] at hws3
                simp only [Option.some.injEq, Prod.mk.injEq] at h
                rw [← h.2]
                omega
              · simp at h
          · simp at h
      · simp at h


theorem parse_fuel_stable (f : Nat) :
    (∀ (cs : List Char) (g : Nat), 2 * cs.length ≤ f → f ≤ g →
      parseValue g cs = parseValue f cs)
    ∧ (∀ (cs : List Char) (g : Nat), 2 * cs.length + 1 ≤ f → f ≤ g →
      parseItems g cs = parseItems f cs)
    ∧ (∀ (cs : List Char) (g : Nat), 2 * cs.length + 1 ≤ f → f ≤ g →
      parseFields g cs = parseFields f cs) := by
  induction f with
  | zero =>
    refine ⟨?_, ?_, ?_⟩
    · intro cs g hlen _
      have hnil : cs = [] := List.length_eq_zero.1 (by omega)
      subst hnil
      cases g <;> simp [parseValue, skipWs]
    · intro cs g hlen; omega
    · intro cs g hlen; omega
  | succ f ih =>
    obtain ⟨ihV, ihI, ihF⟩ := ih
    refine ⟨?_, ?_, ?_⟩
    · intro cs g hlen hfg
      obtain ⟨g, rfl⟩ : ∃ g1, g = g1 + 1 := ⟨g - 1, by omega⟩
      have hws := skipWs_length_le cs
      cases hsk : skipWs cs with
      | nil => simp only [parseValue, hsk]
      | cons c r =>
        rw [hsk] at hws
        simp only [List.length_cons] at hws
        have hI := ihI r g (by omega) (by omega)
        have hF := ihF r g (by omega) (by omega)
        simp only [parseValue, hsk, hI, hF]
    · intro cs g hlen hfg
      obtain ⟨g, rfl⟩ : ∃ g1, g = g1 + 1 := ⟨g - 1, by omega⟩
      have hV := ihV cs g (by omega) (by omega)
      simp only [parseItems, hV]
      cases hv : parseValue f cs with
      | none => rfl
      | some vr =>
        obtain ⟨v, r⟩ := vr
        have hr := (parse_length f).1 _ _ _ hv
        have hws := skipWs_length_le r
        simp only
        cases hsk : skipWs r with
        | nil => rfl
        | cons d r1 =>
          rw [hsk] at hws
          simp only [List.length_cons] at hws
          have hI := ihI r1 g (by omega) (by omega)
          by_cases hd : d = ','
          · subst hd
            simp only [hI]
          · split <;> first
              | (next heq => simp only [List.cons.injEq] at heq; exact absurd heq.1 hd)
              | rfl
    · intro cs g hlen hfg
      obtain ⟨g, rfl⟩ : ∃ g1, g = g1 + 1 := ⟨g - 1, by omega⟩
      have hws := skipWs_length_le cs
      simp only [parseFields]
      cases hsk : skipWs cs with
      | nil => rfl
      | cons q r =>
        rw [hsk] at hws
        simp only [List.length_cons] at hws
        by_cases hq : q = '"'
        · subst hq
          simp only
          cases hstr : readString (r.length + 1) r with
          | none => rfl
          | some kr =>
            obtain ⟨k, r1⟩ := kr
            have h1 := readString_length _ _ _ _ hstr
            have hws1 := skipWs_length_le r1
            simp only
            cases hsk1 : skipWs r1 with
            | nil => rfl
            | cons e r2 =>
              rw [hsk1] at hws1
              simp only [List.length_cons] at hws1
              by_cases he : e = ':'
              · subst he
                have hV := ihV r2 g (by omega) (by omega)
                simp only [hV]
                cases hv : parseValue f r2 with
                | none => rfl
                | some vr =>
                  obtain ⟨v, r3⟩ := vr
                  have h3 := (parse_length f).1 _ _ _ hv
                  have hws3 := skipWs_length_le r3
                  simp only
                  cases hsk3 : skipWs r3 with
                  | nil => rfl
                  | cons d r4 =>
                    rw [hsk3] at hws3
                    simp only [List.length_cons] at hws3
                    have hF := ihF r4 g (by omega) (by omega)
                    by_cases hd : d = ','
                    · subst hd
                      simp only [hF]
                    · split <;> first
                        | (next heq => simp only [List.cons.injEq] at heq; exact absurd heq.1 hd)
                        | rfl
              · split <;> first
                  | (next heq => simp only [List.cons.injEq] at heq; exact absurd heq.1 he)
                  | rfl
        · split <;> first
            | (next heq => simp only [List.cons.injEq] at heq; exact absurd heq.1 hq)
            | rfl

theorem readString_fuel_stable (f : Nat) : ∀ (cs : List Char) (g : Nat),
    cs.length + 1 ≤ f → f ≤ g → readString g cs = readString f cs := by
  induction f with
  | zero => intro cs g h; omega
  | succ f ih =>
    intro cs g hlen hfg
    obtain ⟨g, rfl⟩ : ∃ g1, g = g1 + 1 := ⟨g - 1, by omega⟩
    cases cs with
    | nil => simp [readString]
    | cons c r =>
      simp only [readString]
      split_ifs
      · rfl
      · cases hchar : readStringChar (c :: r) with
        | none => rfl
        | some xr =>
          obtain ⟨x, r1⟩ := xr
          have h1 := readStringChar_length _ _ _ hchar
          have := ih r1 g (by omega) (by omega)
          simp only [this]

/-- The answer of `jsonParse` does not depend on its fuel: any greater fuel gives the
same value, so `none` is a rejection of the text and never a lack of fuel. -/
theorem jsonParse_fuel (text : String) (g : Nat) (hg : 2 * text.data.length + 2 ≤ g) :
    parseValue g text.data = parseValue (2 * text.data.length + 2) text.data :=
  (parse_fuel_stable (2 * text.data.length + 2)).1 text.data g (by omega) hg


/-! ## Ids and dates of added projects -/

theorem addProject_projects_of_accepted (env : Env) (now : Nat) (stamp : String)
    (d : ProjectData) (pm : ProjectManager) (hname : d.name ≠ "") (hdate : d.date ≠ "") :
    (addProject env now stamp d pm).projects = pm.projects ++
      [{ id := String.mk (natDigits now)
         name := sanitizeInput d.name
         date := d.date
         dateFormatted := env.formatDate d.date
         tasks := [("cull", false), ("speeches", false), ("featureFilm", false),
                   ("shortFilm", false)]
         completed := false
         progress := 0
         createdAt := stamp
         lastModified := none }] := by
  unfold addProject
  simp [hname, hdate]

theorem natDigits_injective (a b : Nat) (h : natDigits a = natDigits b) : a = b := by
  have ha := (natDigits_spec a).2.2.1
  have hb := (natDigits_spec b).2.2.1
  rw [h] at ha
  exact ha.symm.trans hb

theorem addProjects_ids (env : Env) (calls : List AddCall) :
    ∀ pm : ProjectManager, (∀ c ∈ calls, c.accepted) →
      (addProjects env calls pm).projects.map (fun p => p.id)
        = pm.projects.map (fun p => p.id)
          ++ calls.map (fun c => String.mk (natDigits c.now)) := by
  induction calls with
  | nil => intro pm _; simp [addProjects]
  | cons c cs ih =>
    intro pm hacc
    have hc := hacc c (List.mem_cons_self c cs)
    have hrest := ih (addProject env c.now c.stamp c.data pm)
      (fun x hx => hacc x (List.mem_cons_of_mem c hx))
    rw [addProjects, hrest, addProject_projects_of_accepted env _ _ _ pm hc.1 hc.2]
    simp

/-- C11, at two accepted calls of `addProject` on the empty store whose clock readings
are the same millisecond (a non-decreasing clock): both projects get the id
`1735689600000`, so the ids of the store are not distinct. -/
theorem addProjects_same_id :
    (demoManager []).projects = []
      ∧ (∀ c ∈ sameMillisecond, c.accepted)
      ∧ (sameMillisecond.map fun c => c.now).Pairwise (fun a b => a ≤ b)
      ∧ (addProjects demoEnv sameMillisecond (demoManager [])).projects.map (fun p => p.id)
          = ["1735689600000", "1735689600000"]
      ∧ ¬ ((addProjects demoEnv sameMillisecond (demoManager [])).projects.map
            fun p => p.id).Nodup := by
  decide

/-- Where the clock reading of every call is later than that of the call before, the ids
of the projects that accepted calls of `addProject` put into an empty store are pairwise
distinct. -/
theorem addProjects_ids_nodup (env : Env) (calls : List AddCall) (pm : ProjectManager)
    (hempty : pm.projects = [])
    (hacc : ∀ c ∈ calls, c.accepted)
    (hclock : (calls.map fun c => c.now).Pairwise (fun a b => a < b)) :
    ((addProjects env calls pm).projects.map fun p => p.id).Nodup := by
  rw [addProjects_ids env calls pm hacc, hempty]
  simp only [List.map_nil, List.nil_append]
  have hn : (calls.map fun c => c.now).Nodup := hclock.imp (fun h => Nat.ne_of_lt h)
  have hinj : Function.Injective (fun n : Nat => String.mk (natDigits n)) := by
    intro a b h
    exact natDigits_injective a b (congrArg String.data h)
  have := hn.map hinj
  simpa [List.map_map, Function.comp] using this

/-- The ids are distinct at two calls one millisecond apart. -/
theorem addProjects_ids_nodup_witness :
    ((addProjects demoEnv
        [⟨1735689600000, "2025-01-01T00:00:00.000Z", ⟨"Smith Wedding", "2025-03-01"⟩⟩,
         ⟨1735689600001, "2025-01-01T00:00:00.001Z", ⟨"Jones Wedding", "2025-01-01"⟩⟩]
        (demoManager [])).projects.map fun p => p.id).Nodup :=
  addProjects_ids_nodup demoEnv
    [⟨1735689600000, "2025-01-01T00:00:00.000Z", ⟨"Smith Wedding", "2025-03-01"⟩⟩,
     ⟨1735689600001, "2025-01-01T00:00:00.001Z", ⟨"Jones Wedding", "2025-01-01"⟩⟩]
    (demoManager []) rfl (by decide) (by decide)


theorem saveProjects_log_alerts (pm : ProjectManager) :
    ∃ es, (saveProjects pm).log = pm.log ++ es
      ∧ ∀ m t, Effect.alert m t ∈ es →
          m = "Storage limit exceeded. Try removing old projects."
          ∨ m = "Failed to save your projects. Please check your browser settings." := by
  unfold saveProjects
  simp only []
  split
  · exact ⟨[.setItem "weddingProjects" (stringify (projectsToJs pm.projects))],
      by simp [ProjectManager.emit], by simp⟩
  · split
    · exact ⟨[.setItem "weddingProjects" (stringify (projectsToJs pm.projects)),
        .consoleError "Error saving projects to localStorage:",
        .alert "Storage limit exceeded. Try removing old projects." .error],
        by simp [showNotification, ProjectManager.emit], by simp⟩
    · exact ⟨[.setItem "weddingProjects" (stringify (projectsToJs pm.projects)),
        .consoleError "Error saving projects to localStorage:",
        .alert "Failed to save your projects. Please check your browser settings." .error],
        by simp [showNotification, ProjectManager.emit], by simp⟩

theorem addProject_log_of_accepted (env : Env) (now : Nat) (stamp : String)
    (d : ProjectData) (pm : ProjectManager) (hname : d.name ≠ "") (hdate : d.date ≠ "") :
    ∃ es, (addProject env now stamp d pm).log = pm.log ++ es
      ∧ Effect.alert "Project name and date are required" .error ∉ es
      ∧ Effect.alert ("Project \"" ++ sanitizeInput d.name ++ "\" added successfully")
          .success ∈ es := by
  unfold addProject
  simp only [hname, hdate, or_self, if_false]
  obtain ⟨es2, l2, n2⟩ := saveProjects_log_alerts
    { pm with projects := pm.projects ++
      [⟨String.mk (natDigits now), sanitizeInput d.name, d.date, env.formatDate d.date,
        [("cull", false), ("speeches", false), ("featureFilm", false), ("shortFilm", false)],
        false, 0, stamp, none⟩] }
  obtain ⟨es3, l3, n3, -⟩ := renderProjects_log env (saveProjects
    { pm with projects := pm.projects ++
      [⟨String.mk (natDigits now), sanitizeInput d.name, d.date, env.formatDate d.date,
        [("cull", false), ("speeches", false), ("featureFilm", false), ("shortFilm", false)],
        false, 0, stamp, none⟩] })
  obtain ⟨es4, l4, n4, -⟩ := updateChart_log (renderProjects env (saveProjects
    { pm with projects := pm.projects ++
      [⟨String.mk (natDigits now), sanitizeInput d.name, d.date, env.formatDate d.date,
        [("cull", false), ("speeches", false), ("featureFilm", false), ("shortFilm", false)],
        false, 0, stamp, none⟩] }))
  refine ⟨es2 ++ es3 ++ es4 ++
    [.alert ("Project \"" ++ sanitizeInput d.name ++ "\" added successfully") .success],
    ?_, ?_, by simp⟩
  · simp [l4, l3, l2]
  · intro hmem
    simp only [List.mem_append, List.mem_singleton, Effect.alert.injEq] at hmem
    rcases hmem with ((h | h) | h) | h
    · rcases n2 _ _ h with h | h <;> exact absurd h (by decide)
    · exact n3 _ _ h
    · exact n4 _ _ h
    · exact absurd h.2 (by decide)

/-- C12 as stated fails: with the date text `not a date`, which is no calendar date,
`addProject` does not fail validation; the empty store gets the project, its date kept
as given and shown as `Invalid Date`. -/
theorem addProject_keeps_unparseable_date :
    demoEnv.timeValue "not a date" = none
      ∧ (demoManager []).projects = []
      ∧ (addProject demoEnv 1735689600000 "2025-01-01T00:00:00.000Z"
          ⟨"Smith Wedding", "not a date"⟩ (demoManager [])).projects
        = [{ id := "1735689600000"
             name := "Smith Wedding"
             date := "not a date"
             dateFormatted := "Invalid Date"
             tasks := [("cull", false), ("speeches", false), ("featureFilm", false),
                       ("shortFilm", false)]
             completed := false
             progress := 0
             createdAt := "2025-01-01T00:00:00.000Z"
             lastModified := none }] := by
  decide

/-- C12 as amended: for a non-empty name and a non-empty date text that is no valid
date, `addProject` passes validation, which only checks that both are present: the
collection gets one more project, whose date is the text as given and still no valid
date; the alert that name and date are required is not raised, and the alert that the
project was added is. -/
theorem addProject_accepts_unparseable_date (env : Env) (now : Nat) (stamp : String)
    (d : ProjectData) (pm : ProjectManager) (hname : d.name ≠ "") (hdate : d.date ≠ "")
    (hbad : env.timeValue d.date = none) :
    ∃ p es, (addProject env now stamp d pm).projects = pm.projects ++ [p]
      ∧ p.date = d.date
      ∧ env.timeValue p.date = none
      ∧ (addProject env now stamp d pm).log = pm.log ++ es
      ∧ Effect.alert "Project name and date are required" .error ∉ es
      ∧ Effect.alert ("Project \"" ++ sanitizeInput d.name ++ "\" added successfully")
          .success ∈ es := by
  obtain ⟨es, hlog, hno, hyes⟩ := addProject_log_of_accepted env now stamp d pm hname hdate
  exact ⟨_, es, addProject_projects_of_accepted env now stamp d pm hname hdate, rfl, hbad,
    hlog, hno, hyes⟩

/-- C12 as amended, at the date text `not a date`. -/
theorem addProject_accepts_unparseable_date_witness :
    ∃ p es, (addProject demoEnv 1735689600000 "2025-01-01T00:00:00.000Z"
          ⟨"Smith Wedding", "not a date"⟩ (demoManager [])).projects
        = (demoManager []).projects ++ [p]
      ∧ p.date = (ProjectData.mk "Smith Wedding" "not a date").date
      ∧ demoEnv.timeValue p.date = none
      ∧ (addProject demoEnv 1735689600000 "2025-01-01T00:00:00.000Z"
          ⟨"Smith Wedding", "not a date"⟩ (demoManager [])).log = (demoManager []).log ++ es
      ∧ Effect.alert "Project name and date are required" .error ∉ es
      ∧ Effect.alert
          ("Project \"" ++ sanitizeInput (ProjectData.mk "Smith Wedding" "not a date").name
            ++ "\" added successfully") .success ∈ es :=
  addProject_accepts_unparseable_date demoEnv 1735689600000 "2025-01-01T00:00:00.000Z"
    ⟨"Smith Wedding", "not a date"⟩ (demoManager []) (by decide) (by decide) (by decide)


/-! ## The order of task names is an invariant

Every tasks object the program makes or changes lists distinct names in the order an
object lists its properties: the one `addProject` makes, the one an assignment of
`updateTask` leaves, and the one `JSON.parse` builds. -/

theorem digit_eq_of_value (c e : Char) (hc : isDigit c = true) (he : isDigit e = true)
    (h : c.toNat - 48 = e.toNat - 48) : c = e := by
  simp only [isDigit, decide_eq_true_eq] at hc he
  have hn : c.toNat = e.toNat := by omega
  apply Char.eq_of_val_eq
  apply UInt32.eq_of_val_eq
  apply Fin.ext
  exact hn

theorem digit_value_lt (c : Char) (hc : isDigit c = true) : c.toNat - 48 < 10 := by
  simp only [isDigit, decide_eq_true_eq] at hc
  omega

theorem digit_value_zero (c : Char) (hc : isDigit c = true) (h : c.toNat - 48 = 0) :
    c = '0' :=
  digit_eq_of_value c '0' hc (by decide) (by simpa using h)

/-- A numeral with no leading zero writes a positive number. -/
theorem digitsValue_pos (ds : List Char) :
    (∀ c ∈ ds, isDigit c = true) → ds.head? ≠ some '0' → ds ≠ [] → 0 < digitsValue ds := by
  induction ds using List.reverseRecOn with
  | nil => intro _ _ h; exact absurd rfl h
  | append_singleton l a ih =>
    intro hd hz _
    rw [digitsValue_append]
    cases l with
    | nil =>
      have ha : isDigit a = true := hd a (by simp)
      have hne : a ≠ '0' := by
        intro h
        apply hz
        simp [h]
      have : a.toNat - 48 ≠ 0 := fun h => hne (digit_value_zero a ha h)
      simp only [digitsValue, List.foldl_nil]
      omega
    | cons b l2 =>
      have := ih (fun c hc => hd c (by simp at hc ⊢; tauto)) (by simpa using hz) (by simp)
      omega

/-- Numerals with no leading zero that write the same number are the same. -/
theorem digitsValue_injective (ds : List Char) :
    ∀ es : List Char, (∀ c ∈ ds, isDigit c = true) → (∀ c ∈ es, isDigit c = true) →
      ds.head? ≠ some '0' → es.head? ≠ some '0' →
      digitsValue ds = digitsValue es → ds = es := by
  induction ds using List.reverseRecOn with
  | nil =>
    intro es _ he _ hz h
    by_contra hne
    have := digitsValue_pos es he hz (fun h2 => hne h2.symm)
    simp only [digitsValue, List.foldl_nil] at h
    simp only [digitsValue] at this
    omega
  | append_singleton l a ih =>
    intro es hd he hz hze h
    have hpos := digitsValue_pos (l ++ [a]) hd hz (by simp)
    rcases List.eq_nil_or_concat es with hes | ⟨l2, b, hes⟩
    · rw [hes] at h
      simp only [digitsValue, List.foldl_nil] at h
      simp only [digitsValue] at hpos
      omega
    · rw [List.concat_eq_append] at hes
      subst hes
      rw [digitsValue_append, digitsValue_append] at h
      have ha := digit_value_lt a (hd a (by simp))
      have hb := digit_value_lt b (he b (by simp))
      have hab : a = b :=
        digit_eq_of_value a b (hd a (by simp)) (he b (by simp)) (by omega)
      have hl : l = l2 := by
        apply ih l2 (fun c hc => hd c (by simp [hc])) (fun c hc => he c (by simp [hc]))
        · cases l with
          | nil => simp
          | cons x xs => simpa using hz
        · cases l2 with
          | nil => simp
          | cons x xs => simpa using hze
        · omega
      rw [hab, hl]

/-- A name is the only one that writes its array index. -/
theorem arrayIndex?_injective (a b : String) (i : Nat)
    (ha : arrayIndex? a = some i) (hb : arrayIndex? b = some i) : a = b := by
  have key : ∀ s : String, arrayIndex? s = some i →
      (∀ c ∈ s.data, isDigit c = true) ∧ digitsValue s.data = i
        ∧ (s.data = ['0'] ∨ (s.data ≠ [] ∧ s.data.head? ≠ some '0')) := by
    intro s hs
    unfold arrayIndex? at hs
    split at hs
    · simp at hs
    · next d ds heq =>
      split at hs
      · next hcond =>
        simp only [Option.some.injEq] at hs
        rw [heq]
        refine ⟨?_, hs, ?_⟩
        · intro c hc
          exact List.all_eq_true.1 hcond.1 c hc
        · by_cases hd : d = '0'
          · left
            have : ds = [] := by
              by_contra hne
              exact hcond.2.1 ⟨hd, hne⟩
            rw [hd, this]
          · right
            exact ⟨by simp, by simpa using hd⟩
      · simp at hs
  obtain ⟨hda, hva, hca⟩ := key a ha
  obtain ⟨hdb, hvb, hcb⟩ := key b hb
  have hdata : a.data = b.data := by
    rcases hca with hca | ⟨hna, hca⟩
    · rcases hcb with hcb | ⟨hnb, hcb⟩
      · rw [hca, hcb]
      · have := digitsValue_pos b.data hdb hcb hnb
        rw [hca] at hva
        simp only [digitsValue, List.foldl_cons, List.foldl_nil] at hva
        have h0 : i = 0 := by rw [← hva]; decide
        omega
    · rcases hcb with hcb | ⟨hnb, hcb⟩
      · have := digitsValue_pos a.data hda hca hna
        rw [hcb] at hvb
        simp only [digitsValue, List.foldl_cons, List.foldl_nil] at hvb
        have h0 : i = 0 := by rw [← hvb]; decide
        omega
      · exact digitsValue_injective a.data b.data hda hdb hca hcb (hva.trans hvb.symm)
  exact String.ext hdata


theorem listedBefore_iff (a b : String) :
    listedBefore a b ↔
      (arrayIndex? b = none
        ∨ ∃ i j, arrayIndex? a = some i ∧ arrayIndex? b = some j ∧ i < j) := by
  unfold listedBefore
  cases ha : arrayIndex? a <;> cases hb : arrayIndex? b <;> simp

theorem insertIndexed_ordered (i : Nat) (k : String) (v : Bool)
    (hi : arrayIndex? k = some i) :
    ∀ tasks : List (String × Bool), k ∉ tasks.map Prod.fst →
      (tasks.map Prod.fst).Pairwise listedBefore →
      ((insertIndexed i k v tasks).map Prod.fst).Pairwise listedBefore := by
  intro tasks
  induction tasks with
  | nil => intro _ _; simp [insertIndexed]
  | cons kv rest ih =>
    intro hk hord
    simp only [List.map_cons, List.mem_cons, not_or] at hk
    simp only [List.map_cons, List.pairwise_cons] at hord
    obtain ⟨hhead, htail⟩ := hord
    have hfirst : ∀ j, arrayIndex? kv.1 = some j → ¬ j < i →
        ∀ b ∈ kv.1 :: rest.map Prod.fst, listedBefore k b := by
      intro j hj hlt b hb
      have hne : j ≠ i := by
        intro h
        exact hk.1 (arrayIndex?_injective k kv.1 i hi (h ▸ hj))
      rw [listedBefore_iff]
      rcases List.mem_cons.1 hb with hb | hb
      · right
        exact ⟨i, j, hi, hb ▸ hj, by omega⟩
      · rcases (listedBefore_iff kv.1 b).1 (hhead b hb) with h | ⟨j2, m, hj2, hm, hlt2⟩
        · exact Or.inl h
        · right
          rw [hj] at hj2
          simp only [Option.some.injEq] at hj2
          exact ⟨i, m, hi, hm, by omega⟩
    unfold insertIndexed
    cases hj : arrayIndex? kv.1 with
    | none =>
      simp only [List.map_cons, List.pairwise_cons]
      refine ⟨?_, hhead, htail⟩
      intro b hb
      rw [listedBefore_iff]
      left
      rcases List.mem_cons.1 hb with hb | hb
      · rw [hb]; exact hj
      · rcases (listedBefore_iff kv.1 b).1 (hhead b hb) with h | ⟨j2, m, hj2, -, -⟩
        · exact h
        · rw [hj] at hj2
          exact absurd hj2 (by simp)
    | some j =>
      simp only
      by_cases hlt : j < i
      · simp only [hlt, if_true, List.map_cons, List.pairwise_cons]
        refine ⟨?_, ih hk.2 htail⟩
        intro b hb
        have hb2 : b ∈ ((k, v) :: rest).map Prod.fst :=
          ((insertIndexed_perm i k v rest).map Prod.fst).subset hb
        simp only [List.map_cons, List.mem_cons] at hb2
        rcases hb2 with hb2 | hb2
        · rw [hb2, listedBefore_iff]
          exact Or.inr ⟨j, i, hj, hi, hlt⟩
        · exact hhead b hb2
      · simp only [hlt, if_false, List.map_cons, List.pairwise_cons]
        exact ⟨hfirst j hj hlt, hhead, htail⟩

/-- The operation `CreateDataProperty` keeps the names distinct and in the order an object
lists them. -/
theorem defineProp_ordered (tasks : List (String × Bool)) (k : String) (v : Bool)
    (hnd : (tasks.map Prod.fst).Nodup)
    (hord : (tasks.map Prod.fst).Pairwise listedBefore) :
    ((defineProp tasks k v).map Prod.fst).Nodup
      ∧ ((defineProp tasks k v).map Prod.fst).Pairwise listedBefore := by
  by_cases hk : k ∈ tasks.map Prod.fst
  · have : defineProp tasks k v = replaceProp tasks k v := by
      unfold defineProp
      simp only [(hasOwn_iff tasks k).2 hk, if_true]
    rw [this, replaceProp_keys]
    exact ⟨hnd, hord⟩
  · have hperm := ((defineProp_new tasks k v hk).1.map Prod.fst)
    refine ⟨hperm.nodup_iff.2 (List.nodup_cons.2 ⟨hk, hnd⟩), ?_⟩
    have hown : hasOwn tasks k = false := by
      rw [Bool.eq_false_iff]
      exact fun h => hk ((hasOwn_iff tasks k).1 h)
    unfold defineProp
    simp only [hown, Bool.false_eq_true, if_false]
    cases hi : arrayIndex? k with
    | none =>
      simp only [List.map_append, List.map_cons, List.map_nil, List.pairwise_append]
      refine ⟨hord, List.pairwise_singleton _ _, ?_⟩
      intro a _ b hb
      rw [List.mem_singleton.1 hb, listedBefore_iff]
      exact Or.inl hi
    | some i => exact insertIndexed_ordered i k v hi tasks hk hord

/-- The assignment `tasks[taskName] = isCompleted` keeps the names distinct and in the
order an object lists them. -/
theorem setProp_ordered (tasks : List (String × Bool)) (k : String) (v : Bool)
    (hnd : (tasks.map Prod.fst).Nodup)
    (hord : (tasks.map Prod.fst).Pairwise listedBefore) :
    ((setProp tasks k v).map Prod.fst).Nodup
      ∧ ((setProp tasks k v).map Prod.fst).Pairwise listedBefore := by
  by_cases hk : k ∈ tasks.map Prod.fst
  · rw [setProp_keys_of_mem tasks k v hk]
    exact ⟨hnd, hord⟩
  · by_cases hproto : k = "__proto__"
    · have hown : hasOwn tasks k = false := by
        rw [Bool.eq_false_iff]
        exact fun h => hk ((hasOwn_iff tasks k).1 h)
      have : setProp tasks k v = tasks := by
        unfold setProp
        rw [hown]
        simp [hproto]
      rw [this]
      exact ⟨hnd, hord⟩
    · rw [setProp_of_not_mem tasks k v hk hproto]
      exact defineProp_ordered tasks k v hnd hord

/-- The tasks object `JSON.parse` builds lists distinct names in the order an object lists
them. -/
theorem tasksOfJs_ordered (fs : List (List Char × JsVal)) :
    ∀ acc tasks : List (String × Bool), (acc.map Prod.fst).Nodup →
      (acc.map Prod.fst).Pairwise listedBefore → tasksOfJs fs acc = some tasks →
      (tasks.map Prod.fst).Nodup ∧ (tasks.map Prod.fst).Pairwise listedBefore := by
  induction fs with
  | nil =>
    intro acc tasks hnd hord h
    simp only [tasksOfJs, Option.some.injEq] at h
    rw [← h]
    exact ⟨hnd, hord⟩
  | cons f rest ih =>
    intro acc tasks hnd hord h
    obtain ⟨k, val⟩ := f
    cases val with
    | bool b =>
      simp only [tasksOfJs] at h
      obtain ⟨h1, h2⟩ := defineProp_ordered acc (String.mk k) b hnd hord
      exact ih _ tasks h1 h2 h
    | _ => simp [tasksOfJs] at h

/-- The project `updateTask` leaves lists distinct task names in the order an object
lists them, when the project did before. -/
theorem updatedProject_ordered (stamp : String) (p : Project) (taskName : String)
    (isCompleted : Bool) (hnd : (p.tasks.map Prod.fst).Nodup)
    (hord : (p.tasks.map Prod.fst).Pairwise listedBefore) :
    ((updatedProject stamp p taskName isCompleted).tasks.map Prod.fst).Nodup
      ∧ ((updatedProject stamp p taskName isCompleted).tasks.map Prod.fst).Pairwise
          listedBefore :=
  setProp_ordered p.tasks taskName isCompleted hnd hord


/-! ## The uncaught throw of the checkbox lookup -/

/-- With the project's card in the document and a task name whose selector
`querySelector` rejects, `updateTask` does not return: it ends by the throw of
`updateProjectUI`, after the task was stored in the project and the collection was
written, with no completion alert. -/
theorem updateTask_lookup_throws (env : Env) (stamp projectId taskName : String)
    (isCompleted : Bool) (pm : ProjectManager) (p : Project)
    (hfind : pm.projects.find? (fun q => q.id == projectId) = some p)
    (hcard : cardPresent pm projectId = true)
    (hproto : taskName ≠ "__proto__")
    (hbad : env.selectorAccepted (checkboxSelector taskName p.id) = false) :
    (updateTask env stamp projectId taskName isCompleted pm).thrown ≠ none
      ∧ ∃ p' es,
        (updateTask env stamp projectId taskName isCompleted pm).state.projects.find?
            (fun q => q.id == projectId) = some p'
        ∧ (taskName, isCompleted) ∈ p'.tasks
        ∧ (updateTask env stamp projectId taskName isCompleted pm).state.log = pm.log ++ es
        ∧ Effect.setItem "weddingProjects" (stringify (projectsToJs
            (updateTask env stamp projectId taskName isCompleted pm).state.projects)) ∈ es
        ∧ ∀ m, Effect.alert m .success ∉ es := by
  obtain ⟨es, hlog, hset, hiff⟩ := updateTask_log_of_find env stamp projectId taskName
    isCompleted pm p hfind
  have hmem : (taskName, isCompleted) ∈ (updatedProject stamp p taskName isCompleted).tasks :=
    setProp_mem p.tasks taskName isCompleted hproto
  have hthrown : (updateTask env stamp projectId taskName isCompleted pm).thrown ≠ none := by
    rw [Ne, updateTask_thrown_of_find env stamp projectId taskName isCompleted pm p hfind]
    intro h
    have hall := h hcard
    unfold lookupsAccepted at hall
    rw [List.all_eq_true] at hall
    have := hall (taskName, isCompleted) hmem
    have hid : (updatedProject stamp p taskName isCompleted).id = p.id := rfl
    rw [hid] at this
    rw [hbad] at this
    exact absurd this (by decide)
  refine ⟨hthrown, _, es, updateTask_find _ _ _ _ _ _ _ hfind, hmem, hlog, ?_, ?_⟩
  · rw [updateTask_projects_of_find _ _ _ _ _ _ _ hfind]
    exact hset
  · intro m hm
    exact hthrown ((hiff m).1 hm).1

set_option maxRecDepth 100000 in
/-- The throw of the checkbox lookup at the task name `1`, on a project shown by its
card: the call ends by a `SyntaxError`, and the text written lists the new task first. -/
theorem updateTask_lookup_throws_witness :
    ((updateTask demoEnv "2025-01-02T09:00:00.000Z" "1735689600000" "1" true
        (renderedManager [demoProject "1735689600000" "2025-03-01" true])).thrown ≠ none
      ∧ ∃ p' es,
        (updateTask demoEnv "2025-01-02T09:00:00.000Z" "1735689600000" "1" true
          (renderedManager [demoProject "1735689600000" "2025-03-01" true])).state.projects.find?
            (fun q => q.id == "1735689600000") = some p'
        ∧ ("1", true) ∈ p'.tasks
        ∧ (updateTask demoEnv "2025-01-02T09:00:00.000Z" "1735689600000" "1" true
          (renderedManager [demoProject "1735689600000" "2025-03-01" true])).state.log
          = (renderedManager [demoProject "1735689600000" "2025-03-01" true]).log ++ es
        ∧ Effect.setItem "weddingProjects" (stringify (projectsToJs
            (updateTask demoEnv "2025-01-02T09:00:00.000Z" "1735689600000" "1" true
              (renderedManager
                [demoProject "1735689600000" "2025-03-01" true])).state.projects)) ∈ es
        ∧ ∀ m, Effect.alert m .success ∉ es)
    ∧ (updateTask demoEnv "2025-01-02T09:00:00.000Z" "1735689600000" "1" true
        (renderedManager [demoProject "1735689600000" "2025-03-01" true])).thrown
        = some "SyntaxError"
    ∧ (updateTask demoEnv "2025-01-02T09:00:00.000Z" "1735689600000" "1" true
        (renderedManager [demoProject "1735689600000" "2025-03-01" true])).state.log
        = [.setItem "weddingProjects" indexTaskText] :=
  ⟨updateTask_lookup_throws demoEnv "2025-01-02T09:00:00.000Z" "1735689600000" "1" true
      (renderedManager [demoProject "1735689600000" "2025-03-01" true])
      (demoProject "1735689600000" "2025-03-01" true) (by decide) (by decide) (by decide)
      (by decide),
    by decide, by decide⟩

end WeddingPM
